import Mathlib

/-!
# Verification of the `mergeDeep` deep-merge algorithm

This file gives a shallow embedding of the repository's merge utility
(`mergeDeep`, `mergeTargetAndSource`, `buildPathToValue`, `propertyIsUnsafe`,
`propertyIsOnObject`, `hasEmberDataProperty`, `getKeys` and the default
accessors) and proves properties of it.

Modelling choices, recorded once here:

* A JavaScript value is a finite tree `JVal`.  An object carries its own
  properties as an ordered association list (key, value, enumerable flag) --
  the list order stands for JavaScript's own-property enumeration order --
  together with the properties visible further up its prototype chain
  (as a flattened key/value list), an `Object.prototype.toString` specialness
  flag (`Date`/`RegExp`), an `instanceof Change` flag, and, when the object is
  an `instanceof Map`, the set of its map keys (map entries are not
  properties).  Symbol keys behave exactly like string keys in every code path
  of the source (lookup, enumerability, get/set), so keys are modelled as
  strings.  JavaScript objects cannot carry duplicate own keys; the raw lists
  here can, and well-formedness is assumed explicitly where a proof needs it.
* Arrays are modelled with index properties only; attaching a named property
  to an array is not representable (no code path of `mergeDeep` does so).
* Numbers are modelled as integers; floating point plays no role in the code.
* In-place mutation is modelled by explicit state passing: every operation
  returns the new state of the target.  When the recursive merge case runs
  `safeSet(target, key, mergeDeep(safeGet(target, key), ...))`, the JS
  mutation of the fetched sub-object is materialised by the write-back of the
  returned value, which coincides with the JS result for the default
  accessors.  On an exception the target state accumulated so far is kept
  (no rollback), matching what a caller observes through its own reference.
* Exceptions are an explicit error channel.  The module is ES-module (strict
  mode) code, so assigning a property to a primitive throws a `TypeError`.
  Possible nontermination (cyclic structures via custom accessors) is
  modelled by a fuel parameter; running out of fuel is a distinct outcome
  that is *not* caught by `mergeDeep`'s catch-all, since in JS it is not an
  exception at all.
* Assignment is modelled as data-property creation/update.  The inherited
  `__proto__` accessor-setter special case is not modelled; no theorem below
  performs an assignment to `__proto__` (the classifier marks it unsafe and
  unsafe keys are never leaf-assigned).
-/

set_option autoImplicit false

namespace MergeDeep

abbrev Key := String

/-- A JavaScript value.  See the header comment for the object encoding:
`own` is the ordered own-property list (key, value, enumerable),
`proto` the flattened prototype-chain properties, `special` the
`Date`/`RegExp` tag, `isChange` the `instanceof Change` tag and `mapKeys`
is `some ks` exactly when the object is an `instanceof Map` with key set
`ks`. -/
inductive JVal where
  | vnull
  | undef
  | bool (b : Bool)
  | num (n : Int)
  | str (s : String)
  | arr (elems : List JVal)
  | obj (own : List (Key × JVal × Bool)) (proto : List (Key × JVal))
      (special : Bool) (isChange : Bool) (mapKeys : Option (List Key))
  deriving Repr

/-- A JavaScript exception value: `TypeError`s raised by primitive
operations, `Error` objects (carrying only their message string), and
arbitrary values thrown by user-supplied accessors. -/
inductive Exn where
  | typeError (msg : String)
  | jsError (msg : String)
  | thrownVal (v : JVal)
  deriving Repr

/-- The single generic failure re-signalled by `mergeDeep`'s top-level catch:
`throw new Error('Unable to mergeDeep with your data')` (backticks of the
original message elided).  It carries nothing but this message. -/
def genericMergeExn : Exn := .jsError "Unable to mergeDeep with your data"

/-- The `TypeError` raised by `Object.keys(null)` / `Object.keys(undefined)`. -/
def toObjectExn : Exn := .typeError "Cannot convert undefined or null to object"

/-- Errors propagating through the interpreter: a JS exception, or fuel
exhaustion (standing for nontermination, which is not an exception and is
never caught). -/
inductive MErr where
  | exn (e : Exn)
  | fuel
  deriving Repr

/-- JS truthiness. -/
def truthy : JVal → Bool
  | .vnull => false
  | .undef => false
  | .bool b => b
  | .num n => n != 0
  | .str s => !s.isEmpty
  | .arr _ => true
  | .obj _ _ _ _ _ => true

/-- `typeof v === 'object'` (true for `null`, arrays and objects). -/
def typeofObject : JVal → Bool
  | .vnull => true
  | .arr _ => true
  | .obj _ _ _ _ _ => true
  | _ => false

/-- `v === null`. -/
def isNullV : JVal → Bool
  | .vnull => true
  | _ => false

/-- `typeof v === 'string'`. -/
def isStringV : JVal → Bool
  | .str _ => true
  | _ => false

/-- `Array.isArray`. -/
def isJSArray : JVal → Bool
  | .arr _ => true
  | _ => false

/-- `v instanceof Change` (from `validated-changeset`). -/
def instanceofChange : JVal → Bool
  | .obj _ _ _ true _ => true
  | _ => false

/-- `v instanceof Map`. -/
def instanceofMap : JVal → Bool
  | .obj _ _ _ _ (some _) => true
  | _ => false

/-- `fields.has(key)` for a Map value (false on anything else; only ever
used under an `instanceof Map` guard). -/
def mapHas : JVal → Key → Bool
  | .obj _ _ _ _ (some ks), k => ks.contains k
  | _, _ => false

/-- First own-property entry for a key: `(value, enumerable)`. -/
def ownLookup (own : List (Key × JVal × Bool)) (k : Key) : Option (JVal × Bool) :=
  match own with
  | [] => none
  | (k', v, e) :: rest => if k' = k then some (v, e) else ownLookup rest k

/-- Index keys `"0" .. "n-1"` of an array or string. -/
def idxKeys (n : Nat) : List Key :=
  (List.range n).map (fun i => toString i)

/-- Lookup of an element of a list by decimal index key. -/
def idxLookup (es : List JVal) (k : Key) : Option JVal :=
  ((es.zip (idxKeys es.length)).find? (fun p => p.2 = k)).map Prod.fst

/-- Direct property read `v[k]` for a non-null receiver, returning
`undefined` when the key is absent.  Objects consult own properties first
(first entry wins), then the prototype chain.  (Call sites in the merge
only read keys of non-null values, where this is total; `null`/`undefined`
receivers go through `defaultSafeGet`, which throws.) -/
def directReadD : JVal → Key → JVal
  | .obj own proto _ _ _, k =>
    match ownLookup own k with
    | some (v, _) => v
    | none =>
      match proto.find? (fun p => p.1 = k) with
      | some (_, v) => v
      | none => .undef
  | .arr es, k =>
    (if k = "length" then some (JVal.num es.length) else idxLookup es k).getD .undef
  | .str s, k =>
    if k = "length" then .num s.length
    else (idxLookup (s.toList.map (fun c => JVal.str (String.mk [c]))) k).getD .undef
  | _, _ => (.undef)

/-- `Object.prototype.hasOwnProperty.call(v, k)`.  (Boxed) primitives own
nothing but string/array indices and `length`; call sites never pass
`null`/`undefined`, for which JS would throw. -/
def hasOwnProp : JVal → Key → Bool
  | .obj own _ _ _ _, k => (ownLookup own k).isSome
  | .arr es, k => k = "length" || (idxLookup es k).isSome
  | .str s, k => k = "length" || (idxKeys s.length).contains k
  | _, _ => false

/-- `Object.prototype.propertyIsEnumerable.call(v, k)`. -/
def propertyIsEnumerable : JVal → Key → Bool
  | .obj own _ _ _ _, k => ((ownLookup own k).map Prod.snd).getD false
  | .arr es, k => (idxLookup es k).isSome
  | .str s, k => (idxKeys s.length).contains k
  | _, _ => false

/-- Raw `k in v`, which throws a `TypeError` on primitive receivers. -/
def jsIn : JVal → Key → Except Exn Bool
  | .obj own proto _ _ _, k =>
    .ok ((ownLookup own k).isSome || (proto.find? (fun p => p.1 = k)).isSome)
  | .arr es, k => .ok (k = "length" || (idxLookup es k).isSome)
  | _, _ => .error (.typeError "Cannot use in operator on a primitive")

/-- Source `propertyIsOnObject`: `try { return property in object } catch (_)
{ return false }` -- an existence-check failure degrades to `false`. -/
def propertyIsOnObject (object : JVal) (property : Key) : Bool :=
  match jsIn object property with
  | .ok b => b
  | .error _ => false

/-- `Object.keys(v)`: throws a `TypeError` on `null`/`undefined`, returns the
own enumerable keys of an object (in enumeration order), the index keys of an
array or string, and `[]` on other primitives. -/
def objectKeys : JVal → Except Exn (List Key)
  | .vnull => .error toObjectExn
  | .undef => .error toObjectExn
  | .obj own _ _ _ _ => .ok ((own.filter (fun p => p.2.2)).map (fun p => p.1))
  | .arr es => .ok (idxKeys es.length)
  | .str s => .ok (idxKeys s.length)
  | _ => .ok []

/-- Source `getKeys`: `Object.keys(target)` plus the own enumerable symbol
keys.  Symbol keys are modelled as string keys inside `own` (they behave
identically in every code path used here), so this coincides with
`objectKeys`. -/
def getKeys : JVal → Except Exn (List Key) := objectKeys

/-- Source `isNonNullObject`: `!!value && typeof value === 'object'`. -/
def isNonNullObject (value : JVal) : Bool :=
  truthy value && typeofObject value

/-- Source `isSpecial`: the `Object.prototype.toString` tag is
`[object RegExp]` or `[object Date]`. -/
def isSpecial : JVal → Bool
  | .obj _ _ sp _ _ => sp
  | _ => false

/-- Source `isMergeableObject`. -/
def isMergeableObject (value : JVal) : Bool :=
  isNonNullObject value && !isSpecial value

/-- Normalized accessor configuration: after `mergeDeep`'s first two lines
both accessors are always set, so the merge proper is parameterised by two
total (but possibly throwing) functions.  A write returns the new state of
the written object (its JS return value is never used by the merge). -/
structure NOpts where
  safeGet : JVal → Key → Except Exn JVal
  safeSet : JVal → Key → JVal → Except Exn JVal

/-- Update or append an own property, as JS assignment on a plain object
does: an existing own data property keeps its enumerability and position;
a new one is appended, enumerable. -/
def setOwn (own : List (Key × JVal × Bool)) (k : Key) (v : JVal) :
    List (Key × JVal × Bool) :=
  match own with
  | [] => [(k, v, true)]
  | (k', v', e) :: rest =>
    if k' = k then (k', v, e) :: rest else (k', v', e) :: setOwn rest k v

/-- Write an element of an array by decimal index key. -/
def setIdx (es : List JVal) (k : Key) (v : JVal) : List JVal :=
  (es.zip (idxKeys es.length)).map (fun p => if p.2 = k then v else p.1)

/-- The default read accessor `function (obj, key) { return obj[key] }`:
member access throws on `null`/`undefined` and otherwise reads own
properties, then the prototype chain. -/
def defaultSafeGet (obj : JVal) (key : Key) : Except Exn JVal :=
  match obj with
  | .vnull => .error (.typeError "Cannot read properties of null")
  | .undef => .error (.typeError "Cannot read properties of undefined")
  | v => .ok (directReadD v key)

/-- The default write accessor `function (obj, key, value) { return obj[key]
= value }`.  In strict mode (ES module) assignment to a primitive or to
`null`/`undefined` throws a `TypeError`.  For arrays only index writes are
representable; a named property on an array would be silently attached in
JS, but no `mergeDeep` code path writes to an array (the dispatcher returns
arrays before the merge loop runs), so the discard is unreachable. -/
def defaultSafeSet (obj : JVal) (key : Key) (value : JVal) : Except Exn JVal :=
  match obj with
  | .obj own proto sp ch mk => .ok (.obj (setOwn own key value) proto sp ch mk)
  | .arr es =>
    if (idxLookup es key).isSome then .ok (.arr (setIdx es key value))
    else .ok (.arr es)
  | _ => .error (.typeError "Cannot create property on a primitive value")

/-- The normalized default configuration installed by `mergeDeep` when the
caller supplies no accessors. -/
def defaultNOpts : NOpts := ⟨defaultSafeGet, defaultSafeSet⟩

/-- Source `hasEmberDataProperty`: reads `options.safeGet(target,
'constructor.fields')` (an exception here is *not* caught and propagates)
and tests `fields instanceof Map && fields.has(key)`. -/
def hasEmberDataProperty (opts : NOpts) (target : JVal) (key : Key) :
    Except Exn Bool := do
  let fields ← opts.safeGet target "constructor.fields"
  pure (instanceofMap fields && mapHas fields key)

/-- Source `propertyIsUnsafe`: dynamic host-model fields are safe
unconditionally; otherwise a key is unsafe when it exists anywhere in the
target (in-check, exceptions degraded to false) and is not an own
enumerable property. -/
def propertyIsUnsafe (opts : NOpts) (target : JVal) (key : Key) :
    Except Exn Bool := do
  if (← hasEmberDataProperty opts target key) then
    pure false
  else
    pure (propertyIsOnObject target key &&
      !(hasOwnProp target key && propertyIsEnumerable target key))

/-- `kv[k] = v` on the plain-object accumulator of `buildPathToValue`:
overwrite in place or append (JS for-in order is insertion order for these
dotted string keys). -/
def assocSet (kv : List (Key × JVal)) (k : Key) (v : JVal) : List (Key × JVal) :=
  match kv with
  | [] => [(k, v)]
  | (k', v') :: rest =>
    if k' = k then (k', v) :: rest else (k', v') :: assocSet rest k v

/-- `[...possibleKeys, key].join('.')`. -/
def dotJoin (ks : List Key) : Key := String.intercalate "." ks

/-- Source `buildPathToValue`: depth-first over `Object.keys(source)`; a
truthy value owning `value` records `kv[path] = possible.value` and cuts the
branch; otherwise `typeof possible === 'object'` (true for `null`!) recurses.
The `options` argument is threaded but unused, as in the source.  Fuel
models the unbounded recursion; `Object.keys(null)` throws before any
recursive call. -/
def buildPathToValue : Nat → JVal → NOpts → List (Key × JVal) → List Key →
    Except MErr (List (Key × JVal))
  | 0, _, _, _, _ => .error .fuel
  | fuel + 1, source, options, kv, possibleKeys => do
    let keys ← (objectKeys source).mapError MErr.exn
    keys.foldlM (fun kv key => do
      let possible := directReadD source key
      if truthy possible && hasOwnProp possible "value" then
        pure (assocSet kv (dotJoin (possibleKeys ++ [key])) (directReadD possible "value"))
      else if typeofObject possible then
        buildPathToValue fuel possible options kv (possibleKeys ++ [key])
      else
        pure kv) kv

/-- The loop body of `buildPathToValue`, named so the proofs below can speak
about the fold directly. -/
def bptvStep (fuel : Nat) (source : JVal) (opts : NOpts) (path : List Key)
    (kv : List (Key × JVal)) (key : Key) : Except MErr (List (Key × JVal)) :=
  let possible := directReadD source key
  if truthy possible && hasOwnProp possible "value" then
    pure (assocSet kv (dotJoin (path ++ [key])) (directReadD possible "value"))
  else if typeofObject possible then
    buildPathToValue fuel possible opts kv (path ++ [key])
  else
    pure kv

/-- Result of a merge call: the returned value together with the state of
the target object after the call (mutations persist even when an exception
propagates -- there is no rollback). -/
inductive MergeOut where
  | ok (ret : JVal) (target : JVal)
  | thrown (e : Exn) (target : JVal)
  | fuelOut (target : JVal)
  deriving Repr

/-- One iteration of the `getKeys(source).forEach(key => ...)` body of
`mergeTargetAndSource`, parameterised by the recursive merge function `md`.
`fuel` only feeds `buildPathToValue`.  The `if (options.safeSet)` guard of
the source is always true here because `mergeDeep` installs a default before
the loop ever runs; the `Object.keys(kv).length > 0` guard is the identity
on the subsequent for-in loop (an empty loop writes nothing). -/
def processKey (md : JVal → JVal → NOpts → MergeOut) (fuel : Nat) (opts : NOpts)
    (source : JVal) (tgt : JVal) (key : Key) : Except (MErr × JVal) JVal :=
  match propertyIsUnsafe opts tgt key with
  | .error e => .error (.exn e, tgt)
  | .ok true =>
    match buildPathToValue fuel source opts [] [] with
    | .error m => .error (m, tgt)
    | .ok kv =>
      kv.foldlM (fun t p =>
        match opts.safeSet t p.1 p.2 with
        | .ok t' => .ok t'
        | .error e => .error ((MErr.exn e), t)) tgt
  | .ok false =>
    let sval := directReadD source key
    if propertyIsOnObject tgt key && isMergeableObject sval &&
        !hasOwnProp sval "value" then
      match opts.safeGet tgt key with
      | .error e => .error (.exn e, tgt)
      | .ok tv =>
        match opts.safeGet source key with
        | .error e => .error (.exn e, tgt)
        | .ok sv =>
          match md tv sv opts with
          | .ok ret _ =>
            match opts.safeSet tgt key ret with
            | .ok t' => .ok t'
            | .error e => .error (.exn e, tgt)
          | .thrown e _ => .error (.exn e, tgt)
          | .fuelOut _ => .error (.fuel, tgt)
    else
      let next := sval
      if truthy next && instanceofChange next then
        match opts.safeSet tgt key (directReadD next "value") with
        | .ok t' => .ok t'
        | .error e => .error (.exn e, tgt)
      else
        match opts.safeSet tgt key next with
        | .ok t' => .ok t'
        | .error e => .error (.exn e, tgt)

/-- The `forEach` loop over the source's keys, threading the target state. -/
def runKeys (md : JVal → JVal → NOpts → MergeOut) (fuel : Nat) (opts : NOpts)
    (source : JVal) : List Key → JVal → MergeOut
  | [], tgt => .ok tgt tgt
  | k :: ks, tgt =>
    match processKey md fuel opts source tgt k with
    | .ok t' => runKeys md fuel opts source ks t'
    | .error (.exn e, t') => .thrown e t'
    | .error (.fuel, t') => .fuelOut t'

/-- Source `mergeTargetAndSource`, parameterised by the recursive merge. -/
def mergeTargetAndSourceGo (md : JVal → JVal → NOpts → MergeOut) (fuel : Nat)
    (target source : JVal) (opts : NOpts) : MergeOut :=
  match getKeys source with
  | .error e => .thrown e target
  | .ok keys => runKeys md fuel opts source keys target

/-- Source `mergeDeep` after accessor normalization: the array-shape
dispatcher, then `mergeTargetAndSource` with every raised exception caught
and re-signalled as the single generic failure (fuel exhaustion is
nontermination, not an exception, and passes through). -/
def mergeDeepF : Nat → JVal → JVal → NOpts → MergeOut
  | 0, target, _, _ => .fuelOut target
  | fuel + 1, target, source, opts =>
    let sourceIsArray := isJSArray source
    let targetIsArray := isJSArray target
    let sourceAndTargetTypesMatch := sourceIsArray == targetIsArray
    if !sourceAndTargetTypesMatch then
      .ok source target
    else if sourceIsArray then
      .ok source target
    else
      match mergeTargetAndSourceGo (mergeDeepF fuel) fuel target source opts with
      | .ok r t' => .ok r t'
      | .thrown _ t' => .thrown genericMergeExn t'
      | .fuelOut t' => .fuelOut t'

/-- Source `mergeTargetAndSource` proper (tied to the recursive merge). -/
def mergeTargetAndSource (fuel : Nat) (target source : JVal) (opts : NOpts) :
    MergeOut :=
  mergeTargetAndSourceGo (mergeDeepF fuel) fuel target source opts

/-- The raw options object a caller passes: both accessors optional. -/
structure Options where
  safeGet : Option (JVal → Key → Except Exn JVal)
  safeSet : Option (JVal → Key → JVal → Except Exn JVal)

/-- The two normalization lines of `mergeDeep`, which assign the (possibly
defaulted) accessors back onto the caller's options object. -/
def normalizeOptions (o : Options) : Options :=
  ⟨some (o.safeGet.getD defaultSafeGet), some (o.safeSet.getD defaultSafeSet)⟩

/-- View a normalized options object as the total accessor pair. -/
def toNOpts (o : Options) : NOpts :=
  ⟨o.safeGet.getD defaultSafeGet, o.safeSet.getD defaultSafeSet⟩

/-- Public `mergeDeep(target, source, options = {})`: mutates the caller's
options object by installing defaults, then dispatches.  The pair returned
is (call outcome, state of the caller's options object after the call).
Nested recursive calls receive the same, already-normalized object, on
which re-running the two normalization lines is the identity. -/
def mergeDeep (fuel : Nat) (target source : JVal) (o : Options) :
    MergeOut × Options :=
  let o' := normalizeOptions o
  (mergeDeepF fuel target source (toNOpts o'), o')

/-! ## Predicates formalizing claim-side conditions

These predicates state conditions appearing in the claims (a source
containing no pending-change wrappers, a source containing no
`constructor.fields` key, the fallback traversal reaching a `null`, the
merge run reaching a key it classifies unsafe).  Each consumes one unit of
fuel per tree level, exactly in step with the merge itself, so that a
predicate at fuel `f + 1` constrains children at fuel `f`. -/

/-- A pending-change wrapper as the merge detects one: a truthy value owning
a `value` property (the structural test used by `buildPathToValue` and the
recursion guard), or an `instanceof Change` (the leaf-assignment test). -/
def isWrapperLike (v : JVal) : Bool :=
  (truthy v && hasOwnProp v "value") || instanceofChange v

/-- No own-property value anywhere inside `v` (own entries of objects,
elements of arrays, at any depth) is a pending-change wrapper. -/
def noWrapF : Nat → JVal → Bool
  | 0, _ => false
  | fuel + 1, v =>
    match v with
    | .arr es => es.all (fun e => !isWrapperLike e && noWrapF fuel e)
    | .obj own _ _ _ _ =>
      own.all (fun p => !isWrapperLike p.2.1 && noWrapF fuel p.2.1)
    | _ => true

/-- No object anywhere inside `v` (including `v` itself) carries an own
property named `constructor.fields`. -/
def noCFF : Nat → JVal → Bool
  | 0, _ => false
  | fuel + 1, v =>
    match v with
    | .arr es => es.all (fun e => noCFF fuel e)
    | .obj own _ _ _ _ =>
      own.all (fun p => !(p.1 = "constructor.fields" : Bool) && noCFF fuel p.2.1)
    | _ => true

/-- Pairwise-distinct list of keys, as a boolean. -/
def keysNodup : List Key → Bool
  | [] => true
  | k :: rest => !(rest.contains k) && keysNodup rest

/-- Own keys are pairwise distinct at every level of `v` (JavaScript objects
cannot carry duplicate own keys; the raw model lists could). -/
def wfKeysF : Nat → JVal → Bool
  | 0, _ => false
  | fuel + 1, v =>
    match v with
    | .arr es => es.all (fun e => wfKeysF fuel e)
    | .obj own _ _ _ _ =>
      keysNodup (own.map (fun p => p.1)) && own.all (fun p => wfKeysF fuel p.2.1)
    | _ => true

/-- The `buildPathToValue` traversal of `v` reaches a property value `null`:
mirrors the traversal exactly -- own enumerable keys, wrapper branches cut,
`typeof possible === 'object'` recursion. -/
def nullReachF : Nat → JVal → Bool
  | 0, _ => false
  | fuel + 1, source =>
    match objectKeys source with
    | .error _ => false
    | .ok keys =>
      keys.any (fun key =>
        let possible := directReadD source key
        if truthy possible && hasOwnProp possible "value" then false
        else if typeofObject possible then
          isNullV possible || nullReachF fuel possible
        else false)

/-- The per-key test inside `nullReachF`, named for the proofs below. -/
def nrPred (fuel : Nat) (source : JVal) (key : Key) : Bool :=
  let possible := directReadD source key
  if truthy possible && hasOwnProp possible "value" then false
  else if typeofObject possible then
    isNullV possible || nullReachF fuel possible
  else false

/-- The key loop of `mergeTargetAndSource` reaches a key that
`propertyIsUnsafe` classifies unsafe (replaying `processKey` on the evolving
target for the keys before it). -/
def hitsUnsafe (md : JVal → JVal → NOpts → MergeOut) (fuel : Nat) (opts : NOpts)
    (source : JVal) : List Key → JVal → Bool
  | [], _ => false
  | k :: ks, tgt =>
    match propertyIsUnsafe opts tgt k with
    | .error _ => false
    | .ok true => true
    | .ok false =>
      match processKey md fuel opts source tgt k with
      | .ok t' => hitsUnsafe md fuel opts source ks t'
      | .error _ => false

/-- The merge run `mergeDeepF (fuel + 1) t s opts` classifies some top-level
source key unsafe when it reaches it. -/
def runHitsUnsafeF (fuel : Nat) (t s : JVal) (opts : NOpts) : Bool :=
  match getKeys s with
  | .error _ => false
  | .ok keys => hitsUnsafe (mergeDeepF fuel) fuel opts s keys t

/-- Re-merging a value into itself can be attempted safely: excludes `null`,
`undefined` and non-empty strings (for which a second merge would throw),
per the spec's source domain of non-null composites. -/
def selfRemergeSafe : JVal → Bool
  | .vnull => false
  | .undef => false
  | .str s => s.isEmpty
  | _ => true

/-! ## Concrete values used by the example parts of the claims -/

/-- A (contents-irrelevant) stand-in for `Object.prototype`. -/
def exObjectProto : JVal := .obj [] [] false false none

/-- The empty plain object `{}`: no own properties; `__proto__` is visible
through its prototype chain (the inherited `Object.prototype.__proto__`
accessor), resolving to the shared prototype object. -/
def exEmptyTarget : JVal := .obj [] [("__proto__", exObjectProto)] false false none

/-- `JSON.parse('{"__proto__":{"polluted":true}}')`: an object with an *own*
enumerable property literally named `__proto__` (JSON.parse never invokes
the inherited setter). -/
def exProtoSource : JVal :=
  .obj [("__proto__", .obj [("polluted", .bool true, true)] [] false false none, true)]
    [] false false none

/-- Target for the partial-mutation example: `{a: 0, b: 7}`. -/
def exT7 : JVal := .obj [("a", .num 0, true), ("b", .num 7, true)] [] false false none

/-- Source for the partial-mutation example: `{a: 5, b: {c: 1}}`. -/
def exS7 : JVal :=
  .obj [("a", .num 5, true),
        ("b", .obj [("c", .num 1, true)] [] false false none, true)] [] false false none

/-- State of `exT7` when the merge of `exS7` fails: `a` has already been
overwritten, `b` has not (merging `{c: 1}` into the number `7` throws). -/
def exT7partial : JVal :=
  .obj [("a", .num 5, true), ("b", .num 7, true)] [] false false none

/-- The Ember-Data `fields` map `Map{"age"}`. -/
def exFieldsMap : JVal := .obj [] [] false false (some ["age"])

/-- A host-model target: no own properties; `age` and `constructor.fields`
are visible through its (proxy-ish) prototype chain, the latter resolving
to `Map{"age"}`. -/
def exEmberTarget : JVal :=
  .obj [] [("age", .undef), ("constructor.fields", exFieldsMap)] false false none

/-- The source `{age: 30}`. -/
def exAgeSource : JVal := .obj [("age", .num 30, true)] [] false false none

/-- `exEmberTarget` after merging `{age: 30}`: `age` written as an own
enumerable property. -/
def exEmberTargetRes : JVal :=
  .obj [("age", .num 30, true)] [("age", .undef), ("constructor.fields", exFieldsMap)]
    false false none

/-- A target whose own property `x` is non-enumerable (so `x` exists on the
target but is not an own enumerable property). -/
def exNonEnumTarget : JVal := .obj [("x", .num 1, false)] [] false false none

/-- A target on which `"rel"` is classified unsafe: it is reachable only
through the prototype chain. -/
def exRelTarget : JVal := .obj [] [("rel", .undef)] false false none

/-- `Wrap(7)`: a pending-change wrapper, i.e. an `instanceof Change` object
whose own `value` property is `7`. -/
def exChange7 : JVal := .obj [("value", .num 7, true)] [] false true none

/-- The source `{rel: {sub: Wrap(7)}}`. -/
def exRelSource : JVal :=
  .obj [("rel", .obj [("sub", exChange7, true)] [] false false none, true)]
    [] false false none

/-- What the merge actually produces with *no* `safeSet` supplied: the
default setter is installed by normalization, the fallback path search finds
`rel.sub -> 7`, and the default setter writes the literal own key
`"rel.sub"` on the target. -/
def exRelResult : JVal :=
  .obj [("rel.sub", .num 7, true)] [("rel", .undef)] false false none

/-- A *structural* wrapper: a plain object owning a `value` property, but
not an `instanceof Change`. -/
def exStructWrapper : JVal := .obj [("value", .num 5, true)] [] false false none

/-- The empty plain object (bare, chain irrelevant here). -/
def exEmptyObj : JVal := .obj [] [] false false none

/-- The source `{a: {value: 5}}` whose property value is a structural
wrapper only. -/
def exWrapSource : JVal := .obj [("a", exStructWrapper, true)] [] false false none

/-- Result of merging `exWrapSource` into `{}`: the structural wrapper
object itself is stored under `a`. -/
def exWrapResult : JVal := .obj [("a", exStructWrapper, true)] [] false false none

/-- Source whose fallback traversal reaches a `null`: `{rel: {x: null}}`. -/
def exNullSource : JVal :=
  .obj [("rel", .obj [("x", .vnull, true)] [] false false none, true)] [] false false none

/-- The idempotence counterexample source
`{rel: 5, "constructor.fields": Map{"rel"}}`: it contains no pending-change
wrapper, yet merging it twice is not a no-op, because the write of its
literal `constructor.fields` key flips the classifier for `rel` between the
two runs. -/
def exCFSource : JVal :=
  .obj [("rel", .num 5, true),
        ("constructor.fields", .obj [] [] false false (some ["rel"]), true)]
    [] false false none

/-- First merge of `exCFSource` into `exRelTarget`: `rel` is unsafe (chain
only, no fields map yet) and silently skipped; `constructor.fields` is
written. -/
def exCFRun1 : JVal :=
  .obj [("constructor.fields", .obj [] [] false false (some ["rel"]), true)]
    [("rel", .undef)] false false none

/-- Second merge: the fields map is now readable at `constructor.fields`,
so `rel` is classified safe and written. -/
def exCFRun2 : JVal :=
  .obj [("constructor.fields", .obj [] [] false false (some ["rel"]), true),
        ("rel", .num 5, true)]
    [("rel", .undef)] false false none

end MergeDeep

namespace MergeDeep

/-! # Theorems -/

/-! ## Shared helper lemmas -/

/-- After `setOwn own k v`, the first entry for `k` holds `v`. -/
theorem ownLookup_setOwn_fst (own : List (Key × JVal × Bool)) (k : Key) (v : JVal) :
    (ownLookup (setOwn own k v) k).map Prod.fst = some v := by
  induction own with
  | nil => simp [setOwn, ownLookup]
  | cons hd tl ih =>
    obtain ⟨k', v', e'⟩ := hd
    by_cases h : k' = k <;> simp [setOwn, ownLookup, h, ih]

/-- Reading back the key just written by a plain-object assignment yields
the written value. -/
theorem directReadD_setOwn (own : List (Key × JVal × Bool)) (pr : List (Key × JVal))
    (sp ch : Bool) (mk : Option (List Key)) (k : Key) (v : JVal) :
    directReadD (.obj (setOwn own k v) pr sp ch mk) k = v := by
  have h := ownLookup_setOwn_fst own k v
  cases hL : ownLookup (setOwn own k v) k with
  | none => rw [hL] at h; simp at h
  | some p =>
    rw [hL] at h
    obtain ⟨a, b⟩ := p
    simp only [Option.map] at h
    simp only [Option.some.injEq] at h
    simp [directReadD, hL, h]

/-! ## C1: prototype-pollution resistance -/

/-- C1 (confirmed).  Merging `JSON.parse('{"__proto__":{"polluted":true}}')`
into `{}` performs no write at all: the classifier marks `__proto__`
(reachable on the target only through the prototype chain, not an own
enumerable property) unsafe, the fallback path search finds no wrapper, and
the merge returns the target completely unchanged -- in particular the
shared prototype object is still reachable unmodified and owns no
`polluted` property, so `Object.prototype` is not polluted. -/
theorem mergeDeep_no_prototype_pollution :
    mergeDeepF 5 exEmptyTarget exProtoSource defaultNOpts = .ok exEmptyTarget exEmptyTarget ∧
    propertyIsUnsafe defaultNOpts exEmptyTarget "__proto__" = .ok true ∧
    directReadD exEmptyTarget "__proto__" = exObjectProto ∧
    hasOwnProp exObjectProto "polluted" = false :=
  ⟨rfl, rfl, rfl, rfl⟩

/-! ## C6: array handling of the entry dispatcher -/

/-- C6 (confirmed).  Whenever at least one of target and source is an array
(so either their array-ness differs, or both are arrays), `mergeDeep`
returns `source` itself and leaves the target untouched: no element-wise or
key-wise merge is attempted. -/
theorem mergeDeep_array_replaces (fuel : Nat) (target source : JVal) (opts : NOpts)
    (hf : 0 < fuel) (h : (isJSArray target || isJSArray source) = true) :
    mergeDeepF fuel target source opts = .ok source target := by
  cases fuel with
  | zero => exact absurd hf (by simp)
  | succ f =>
    rcases ht : isJSArray target <;> rcases hs : isJSArray source <;>
      simp_all [mergeDeepF]

/-- Witness for C6 at a concrete input: merging `{}` into `[1]` returns the
source object and does not touch the target. -/
theorem mergeDeep_array_replaces_witness :
    mergeDeepF 1 (.arr [.num 1]) (.obj [] [] false false none) defaultNOpts =
      .ok (.obj [] [] false false none) (.arr [.num 1]) :=
  mergeDeep_array_replaces 1 (.arr [.num 1]) (.obj [] [] false false none)
    defaultNOpts (by decide) (by decide)

/-! ## C7: the single opaque merge failure -/

/-- C7 (confirmed).  Every exception raised while merging (traversal,
classifier accessor reads, writes, nested merges) surfaces from `mergeDeep`
as exactly the one generic merge-failure error, carrying only its fixed
message and no structured cause; and no rollback is performed -- the
concrete run merging `{a: 5, b: {c: 1}}` into `{a: 0, b: 7}` fails (the
nested merge assigns onto the number `7`, a strict-mode `TypeError`) yet
leaves the target with `a` already overwritten to `5`. -/
theorem mergeDeep_failure_is_generic_and_partial :
    (∀ (fuel : Nat) (target source : JVal) (opts : NOpts) (e : Exn) (tg : JVal),
      mergeDeepF fuel target source opts = .thrown e tg → e = genericMergeExn) ∧
    mergeDeepF 5 exT7 exS7 defaultNOpts = .thrown genericMergeExn exT7partial ∧
    directReadD exT7partial "a" = .num 5 ∧
    directReadD exT7 "a" = .num 0 := by
  refine ⟨?_, rfl, rfl, rfl⟩
  intro fuel target source opts e tg h
  cases fuel with
  | zero => simp [mergeDeepF] at h
  | succ f =>
    simp only [mergeDeepF] at h
    split at h
    · simp at h
    · split at h
      · simp at h
      · split at h <;> simp_all

/-- Witness for C7: the generic-error property applied to the concrete
failing run above. -/
theorem mergeDeep_failure_is_generic_witness :
    genericMergeExn = genericMergeExn :=
  mergeDeep_failure_is_generic_and_partial.1 5 exT7 exS7 defaultNOpts
    genericMergeExn exT7partial mergeDeep_failure_is_generic_and_partial.2.1

/-! ## C9: `mergeDeep` mutates the caller's options object -/

/-- C9 (confirmed).  `mergeDeep` installs the (possibly defaulted) accessors
back onto the very options object the caller passed: after any call the
caller's object holds both accessors; when a field was absent the default
accessor is now observable on it; and passing the same object again leaves
it unchanged (normalization is idempotent), so the installed defaults are
reused. -/
theorem mergeDeep_mutates_options :
    (∀ (fuel : Nat) (t s : JVal) (o : Options),
      (mergeDeep fuel t s o).2 = normalizeOptions o) ∧
    (∀ (fuel : Nat) (t s : JVal),
      (mergeDeep fuel t s ⟨none, none⟩).2 =
        ⟨some defaultSafeGet, some defaultSafeSet⟩) ∧
    (∀ o : Options, normalizeOptions (normalizeOptions o) = normalizeOptions o) ∧
    (∀ (fuel : Nat) (t s : JVal) (fuel' : Nat) (t' s' : JVal) (o : Options),
      (mergeDeep fuel' t' s' ((mergeDeep fuel t s o).2)).2 = (mergeDeep fuel t s o).2) :=
  ⟨fun _ _ _ _ => rfl, fun _ _ _ => rfl, fun _ => rfl, fun _ _ _ _ _ _ _ => rfl⟩

/-! ## C4: the dynamic-field allowance -/

/-- C4 (confirmed).  For every target, key and accessor configuration, when
the `fields` collection read at `target.constructor.fields` is a `Map`
containing the key, the classifier returns safe unconditionally; and in the
concrete host-model example, merging `{age: 30}` into a target lacking an
own `age` property (where the plain unsafe rule would otherwise fire, since
`age` is visible only through the chain) still writes `age`. -/
theorem dynamic_field_key_is_safe :
    (∀ (opts : NOpts) (t : JVal) (k : Key) (fields : JVal),
      opts.safeGet t "constructor.fields" = .ok fields →
      instanceofMap fields = true →
      mapHas fields k = true →
      propertyIsUnsafe opts t k = .ok false) ∧
    hasOwnProp exEmberTarget "age" = false ∧
    propertyIsOnObject exEmberTarget "age" = true ∧
    mergeDeepF 5 exEmberTarget exAgeSource defaultNOpts =
      .ok exEmberTargetRes exEmberTargetRes ∧
    directReadD exEmberTargetRes "age" = .num 30 := by
  refine ⟨?_, rfl, rfl, rfl, rfl⟩
  intro opts t k fields hget hmap hhas
  simp [propertyIsUnsafe, hasEmberDataProperty, Bind.bind, Except.bind, hget, hmap,
    hhas, pure, Except.pure]

/-- Witness for C4: the unconditional-safety rule applied to the concrete
host-model target. -/
theorem dynamic_field_key_is_safe_witness :
    propertyIsUnsafe defaultNOpts exEmberTarget "age" = .ok false :=
  dynamic_field_key_is_safe.1 defaultNOpts exEmberTarget "age" exFieldsMap rfl rfl rfl

/-! ## C5: the unsafe-key characterization -/

/-- C5 (confirmed).  Outside the dynamic-field allowance, the classifier
says unsafe exactly when the raw `in`-check answers `true` and the key is
not both an own property and enumerable; and an `in`-check that throws is
degraded to "not present" by `propertyIsOnObject` and never propagates. -/
theorem propertyIsUnsafe_characterization :
    (∀ (opts : NOpts) (t : JVal) (k : Key),
      hasEmberDataProperty opts t k = .ok false →
      (propertyIsUnsafe opts t k = .ok true ↔
        (jsIn t k = .ok true ∧
          ¬(hasOwnProp t k = true ∧ propertyIsEnumerable t k = true)))) ∧
    (∀ (t : JVal) (k : Key) (e : Exn),
      jsIn t k = .error e → propertyIsOnObject t k = false) := by
  constructor
  · intro opts t k he
    have hred : propertyIsUnsafe opts t k =
        .ok (propertyIsOnObject t k &&
          !(hasOwnProp t k && propertyIsEnumerable t k)) := by
      simp [propertyIsUnsafe, Bind.bind, Except.bind, he, pure, Except.pure]
    have hon : propertyIsOnObject t k = true ↔ jsIn t k = .ok true := by
      unfold propertyIsOnObject
      cases hj : jsIn t k <;> simp [hj]
    rw [hred]
    simp only [Except.ok.injEq]
    rw [Bool.and_eq_true, Bool.not_eq_true', Bool.and_eq_false_iff]
    constructor
    · rintro ⟨h1, h2⟩
      exact ⟨hon.mp h1, by rcases h2 with h | h <;> simp [h]⟩
    · rintro ⟨h1, h2⟩
      refine ⟨hon.mpr h1, ?_⟩
      rcases hb : hasOwnProp t k with _ | _
      · exact Or.inl rfl
      · rcases hc : propertyIsEnumerable t k with _ | _
        · exact Or.inr rfl
        · exact absurd ⟨hb, hc⟩ h2
  · intro t k e h
    simp [propertyIsOnObject, h]

/-- Witness for C5: the characterization applied at a target whose `x` is an
own non-enumerable property, concluding that `x` is classified unsafe. -/
theorem propertyIsUnsafe_characterization_witness :
    propertyIsUnsafe defaultNOpts exNonEnumTarget "x" = .ok true :=
  (propertyIsUnsafe_characterization.1 defaultNOpts exNonEnumTarget "x" rfl).mpr
    ⟨rfl, by decide⟩

/-! ## C2: behaviour of unsafe keys when `safeSet` is not supplied -/

/-- C2 counterexample.  With `options = {}` (no `safeSet` supplied), key
`"rel"` classified unsafe and source `{rel: {sub: Wrap(7)}}`, a write *is*
performed: the target gains the literal own enumerable property
`"rel.sub" = 7`, so it is not unchanged for that key and the key was not
silently dropped. -/
theorem unsafe_key_without_safeSet_counterexample :
    propertyIsUnsafe defaultNOpts exRelTarget "rel" = .ok true ∧
    hasOwnProp exRelTarget "rel.sub" = false ∧
    (mergeDeep 6 exRelTarget exRelSource ⟨none, none⟩).1 = .ok exRelResult exRelResult ∧
    directReadD exRelResult "rel.sub" = .num 7 ∧
    exRelResult ≠ exRelTarget :=
  ⟨rfl, rfl, rfl, rfl, by
    intro h
    simp [exRelResult, exRelTarget] at h⟩

/-- C2 amended (corrected).  `mergeDeep` installs a default setter whenever
`safeSet` is absent, so calls without `safeSet` behave exactly like calls
with the default setter supplied: unsafe keys are still path-resolved, and
each dotted path found by the wrapper search is written onto the target as
a literal own key by the default setter (the key is dropped only when the
search finds no wrapper anywhere in source). -/
theorem unsafe_key_without_safeSet_amended :
    (∀ (fuel : Nat) (t s : JVal) (g : Option (JVal → Key → Except Exn JVal)),
      mergeDeep fuel t s ⟨g, none⟩ = mergeDeep fuel t s ⟨g, some defaultSafeSet⟩) ∧
    (mergeDeep 6 exRelTarget exRelSource ⟨none, none⟩).1 = .ok exRelResult exRelResult ∧
    directReadD exRelResult "rel.sub" = .num 7 :=
  ⟨fun _ _ _ _ => rfl, rfl, rfl⟩

/-! ## C3: which wrappers are unwrapped -/

/-- C3 counterexample.  A source property whose value possesses an own
`value` property (the claimed structural recognition) but is not an
`instanceof Change` is leaf-assigned as-is: after the merge the wrapper
object itself sits in the target, not its unwrapped payload. -/
theorem wrapper_stored_counterexample :
    mergeDeepF 5 exEmptyObj exWrapSource defaultNOpts = .ok exWrapResult exWrapResult ∧
    hasOwnProp exStructWrapper "value" = true ∧
    instanceofChange exStructWrapper = false ∧
    directReadD exWrapResult "a" = exStructWrapper ∧
    directReadD exWrapResult "a" ≠ .num 5 :=
  ⟨rfl, rfl, rfl, rfl, fun h => JVal.noConfusion h⟩

/-- C3 amended (corrected).  Pending-change wrappers are recognized by
`instanceof Change`, not structurally: whenever a source property's value is
a `Change` instance and its key is classified safe, the merge leaf-assigns
exactly the wrapper's unwrapped `value` payload (never the wrapper); and a
value just written by the default setter reads back as that payload.  An
object that merely owns a `value` property without being a `Change` is
written as-is (see the counterexample). -/
theorem change_unwrap_amended :
    (∀ (md : JVal → JVal → NOpts → MergeOut) (fuel : Nat)
      (source tgt : JVal) (key : Key) (w payload t' : JVal),
      propertyIsUnsafe defaultNOpts tgt key = .ok false →
      directReadD source key = w →
      instanceofChange w = true →
      truthy w = true →
      hasOwnProp w "value" = true →
      directReadD w "value" = payload →
      defaultSafeSet tgt key payload = .ok t' →
      processKey md fuel defaultNOpts source tgt key = .ok t') ∧
    (∀ (own : List (Key × JVal × Bool)) (pr : List (Key × JVal)) (sp ch : Bool)
      (mk : Option (List Key)) (k : Key) (v : JVal),
      directReadD (.obj (setOwn own k v) pr sp ch mk) k = v) := by
  refine ⟨?_, directReadD_setOwn⟩
  intro md fuel source tgt key w payload t' hu hsrc hch htr hw hpay hset
  unfold processKey
  rw [hu]
  simp [hsrc, hch, htr, hw, hpay, defaultNOpts, hset]

/-- Witness for the amended C3: merging `{n: Wrap(7)}` into `{}` stores the
payload `7` under `n`. -/
theorem change_unwrap_amended_witness :
    processKey (mergeDeepF 0) 0 defaultNOpts
      (.obj [("n", exChange7, true)] [] false false none) exEmptyObj "n" =
      .ok (.obj [("n", .num 7, true)] [] false false none) :=
  change_unwrap_amended.1 (mergeDeepF 0) 0
    (.obj [("n", exChange7, true)] [] false false none) exEmptyObj "n"
    exChange7 (.num 7) (.obj [("n", .num 7, true)] [] false false none)
    rfl rfl rfl rfl rfl rfl rfl

end MergeDeep

namespace MergeDeep

/-! ## Structural lemmas about lookups and sizes -/

/-- `foldlM` over `Except`, one step. -/
theorem foldlM_except_cons {α β ε : Type} (f : β → α → Except ε β) (b : β)
    (a : α) (l : List α) :
    List.foldlM f b (a :: l) = (f b a).bind (fun b' => List.foldlM f b' l) := rfl

/-- A found own entry is a member of the list. -/
theorem ownLookup_mem (own : List (Key × JVal × Bool)) (k : Key) (p : JVal × Bool)
    (h : ownLookup own k = some p) : (k, p) ∈ own := by
  induction own with
  | nil => simp [ownLookup] at h
  | cons hd tl ih =>
    obtain ⟨k', v', e'⟩ := hd
    rw [show ownLookup ((k', v', e') :: tl) k =
        if k' = k then some (v', e') else ownLookup tl k from rfl] at h
    by_cases hk : k' = k
    · rw [if_pos hk] at h
      injection h with h2
      subst hk
      rw [← h2]
      exact List.mem_cons_self _ _
    · rw [if_neg hk] at h
      exact List.mem_cons_of_mem _ (ih h)

/-- An entry with a key makes `ownLookup` succeed on that key. -/
theorem ownLookup_isSome_of_entry (own : List (Key × JVal × Bool)) (k : Key)
    (x : JVal) (e : Bool) (h : (k, x, e) ∈ own) : (ownLookup own k).isSome := by
  induction own with
  | nil => simp at h
  | cons hd tl ih =>
    obtain ⟨k', v', e'⟩ := hd
    by_cases hk : k' = k
    · simp [ownLookup, hk]
    · rcases List.mem_cons.mp h with h1 | h1
      · rw [Prod.mk.injEq] at h1
        exact absurd h1.1.symm hk
      · simp only [ownLookup, if_neg hk]
        exact ih h1

/-- Every enumerated own key has an own entry. -/
theorem ownLookup_isSome_of_mem_keys (own : List (Key × JVal × Bool)) (k : Key)
    (h : k ∈ (own.filter (fun p => p.2.2)).map (fun p => p.1)) :
    (ownLookup own k).isSome := by
  obtain ⟨⟨pk, pv, pe⟩, hp, rfl⟩ := List.mem_map.mp h
  have hmem := (List.mem_filter.mp hp).1
  exact ownLookup_isSome_of_entry own pk pv pe hmem

/-- An index lookup returns an element of the list. -/
theorem idxLookup_mem (es : List JVal) (k : Key) (v : JVal)
    (h : idxLookup es k = some v) : v ∈ es := by
  unfold idxLookup at h
  cases hf : (es.zip (idxKeys es.length)).find? (fun p => p.2 = k) with
  | none => rw [hf] at h; simp at h
  | some p =>
    rw [hf] at h
    simp only [Option.map, Option.some.injEq] at h
    have hmem := List.mem_of_find?_eq_some hf
    obtain ⟨a, b⟩ := p
    have hab := List.of_mem_zip hmem
    rw [← h]
    exact hab.1

/-- A child fetched by the traversal is structurally smaller, provided it is
object-typed (this rules out the synthesized `length` and character
reads). -/
theorem sizeOf_directReadD_lt (v : JVal) (keys : List Key) (k : Key)
    (hk : objectKeys v = .ok keys) (hmem : k ∈ keys)
    (hobj : typeofObject (directReadD v k) = true) :
    sizeOf (directReadD v k) < sizeOf v := by
  cases v with
  | vnull => simp [objectKeys, toObjectExn] at hk
  | undef => simp [objectKeys, toObjectExn] at hk
  | bool b =>
    simp only [objectKeys, Except.ok.injEq] at hk
    subst hk; simp at hmem
  | num n =>
    simp only [objectKeys, Except.ok.injEq] at hk
    subst hk; simp at hmem
  | str s =>
    exfalso
    by_cases hlen : k = "length"
    · simp [directReadD, hlen, typeofObject] at hobj
    · rw [show directReadD (JVal.str s) k =
          (idxLookup (s.toList.map (fun c => JVal.str (String.mk [c]))) k).getD .undef
          from by simp [directReadD, hlen]] at hobj
      cases hl : idxLookup (s.toList.map fun c => JVal.str (String.mk [c])) k with
      | none => rw [hl] at hobj; simp [typeofObject] at hobj
      | some w =>
        rw [hl] at hobj
        simp only [Option.getD_some] at hobj
        have hw := idxLookup_mem _ _ _ hl
        simp only [List.mem_map] at hw
        obtain ⟨c, _, rfl⟩ := hw
        simp [typeofObject] at hobj
  | arr es =>
    by_cases hlen : k = "length"
    · exfalso; simp [directReadD, hlen, typeofObject] at hobj
    · rw [show directReadD (JVal.arr es) k = (idxLookup es k).getD .undef
          from by simp [directReadD, hlen]] at hobj ⊢
      cases hl : idxLookup es k with
      | none => rw [hl] at hobj; simp [typeofObject] at hobj
      | some w =>
        rw [hl] at hobj
        simp only [Option.getD_some] at hobj ⊢
        have hw := idxLookup_mem _ _ _ hl
        have h1 := List.sizeOf_lt_sizeOf_of_mem hw
        have h2 : sizeOf (JVal.arr es) = 1 + sizeOf es := by
          simp [JVal.arr.sizeOf_spec]
        omega
  | obj own proto sp ch mk =>
    simp only [objectKeys, Except.ok.injEq] at hk
    subst hk
    have hsome := ownLookup_isSome_of_mem_keys own k hmem
    cases hL : ownLookup own k with
    | none => rw [hL] at hsome; simp at hsome
    | some p =>
      obtain ⟨w, e⟩ := p
      have hmem2 := ownLookup_mem own k (w, e) hL
      have h1 := List.sizeOf_lt_sizeOf_of_mem hmem2
      have h2 : sizeOf ((k, w, e) : Key × JVal × Bool) =
          1 + sizeOf k + (1 + sizeOf w + sizeOf e) := by
        simp [Prod.mk.sizeOf_spec]
      have h3 : sizeOf (JVal.obj own proto sp ch mk) =
          1 + sizeOf own + sizeOf proto + sizeOf sp + sizeOf ch + sizeOf mk := by
        simp [JVal.obj.sizeOf_spec]
      simp only [directReadD, hL]
      omega

end MergeDeep

namespace MergeDeep

/-! ## The fallback path builder on traversals that reach a `null` -/

/-- One unfolding of `buildPathToValue` when `Object.keys` succeeds. -/
theorem buildPathToValue_fold (fuel : Nat) (source : JVal) (opts : NOpts)
    (kv : List (Key × JVal)) (path : List Key) (keys : List Key)
    (hk : objectKeys source = .ok keys) :
    buildPathToValue (fuel + 1) source opts kv path =
      keys.foldlM (bptvStep fuel source opts path) kv := by
  simp only [buildPathToValue, hk, Except.mapError, Bind.bind, Except.bind]
  rfl

/-- `buildPathToValue` on `null` throws the `Object.keys` TypeError. -/
theorem buildPathToValue_null (fuel : Nat) (opts : NOpts)
    (kv : List (Key × JVal)) (path : List Key) :
    buildPathToValue (fuel + 1) .vnull opts kv path = .error (.exn toObjectExn) := rfl

/-- One unfolding of `nullReachF` when `Object.keys` succeeds. -/
theorem nullReachF_ok (fuel : Nat) (source : JVal) (keys : List Key)
    (hk : objectKeys source = .ok keys) :
    nullReachF (fuel + 1) source = keys.any (nrPred fuel source) := by
  simp only [nullReachF, hk]
  rfl

/-- `nullReachF` is false when `Object.keys` itself fails. -/
theorem nullReachF_error (fuel : Nat) (source : JVal) (e : Exn)
    (hk : objectKeys source = .error e) : nullReachF (fuel + 1) source = false := by
  simp only [nullReachF, hk]

/-- With adequate fuel, the path builder either succeeds or fails with the
`Object.keys(null)` TypeError (never with fuel exhaustion). -/
theorem bptv_dichotomy : ∀ (fuel : Nat) (source : JVal) (opts : NOpts)
    (kv : List (Key × JVal)) (path : List Key) (keys : List Key),
    sizeOf source < fuel → objectKeys source = .ok keys →
    (∃ kv', buildPathToValue fuel source opts kv path = .ok kv') ∨
      buildPathToValue fuel source opts kv path = .error (.exn toObjectExn) := by
  intro fuel
  induction fuel with
  | zero => intro source _ _ _ _ h _; exact absurd h (by omega)
  | succ f ih =>
    intro source opts kv path keys hsz hk
    rw [buildPathToValue_fold f source opts kv path keys hk]
    suffices hgen : ∀ (ks : List Key), (∀ x, x ∈ ks → x ∈ keys) → ∀ kv,
        (∃ kv', ks.foldlM (bptvStep f source opts path) kv = .ok kv') ∨
          ks.foldlM (bptvStep f source opts path) kv = .error (.exn toObjectExn) by
      exact hgen keys (fun _ h => h) kv
    intro ks
    induction ks with
    | nil => intro _ kv; exact Or.inl ⟨kv, rfl⟩
    | cons k ks ihks =>
      intro hsub kv
      have hkmem : k ∈ keys := hsub k (List.mem_cons_self _ _)
      have hsub' : ∀ x, x ∈ ks → x ∈ keys :=
        fun x hx => hsub x (List.mem_cons_of_mem _ hx)
      rw [foldlM_except_cons]
      by_cases hcut : (truthy (directReadD source k) &&
          hasOwnProp (directReadD source k) "value") = true
      · have hstep : bptvStep f source opts path kv k =
            .ok (assocSet kv (dotJoin (path ++ [k]))
              (directReadD (directReadD source k) "value")) := by
          simp [bptvStep, hcut, pure, Except.pure]
        rw [hstep]
        exact ihks hsub' _
      · rw [Bool.not_eq_true] at hcut
        by_cases htyp : typeofObject (directReadD source k) = true
        · have hstep : bptvStep f source opts path kv k =
              buildPathToValue f (directReadD source k) opts kv (path ++ [k]) := by
            simp [bptvStep, hcut, htyp]
          rw [hstep]
          have hlt := sizeOf_directReadD_lt source keys k hk hkmem htyp
          cases hchild : directReadD source k with
          | vnull =>
            rw [hchild] at hlt
            have h1 : sizeOf (JVal.vnull) = 1 := rfl
            obtain ⟨f', rfl⟩ : ∃ f', f = f' + 1 := ⟨f - 1, by omega⟩
            rw [buildPathToValue_null]
            exact Or.inr rfl
          | undef => rw [hchild] at htyp; simp [typeofObject] at htyp
          | bool b => rw [hchild] at htyp; simp [typeofObject] at htyp
          | num n => rw [hchild] at htyp; simp [typeofObject] at htyp
          | str st => rw [hchild] at htyp; simp [typeofObject] at htyp
          | arr es =>
            rw [hchild] at hlt
            rcases ih (JVal.arr es) opts kv (path ++ [k]) (idxKeys es.length)
                (by omega) rfl with ⟨kv', hok⟩ | herr
            · rw [hok]; exact ihks hsub' kv'
            · rw [herr]; exact Or.inr rfl
          | obj own pr sp ch mk =>
            rw [hchild] at hlt
            have hkobj : objectKeys (JVal.obj own pr sp ch mk) =
                .ok ((own.filter (fun p => p.2.2)).map (fun p => p.1)) := rfl
            rcases ih (JVal.obj own pr sp ch mk) opts kv (path ++ [k])
                ((own.filter (fun p => p.2.2)).map (fun p => p.1))
                (by omega) hkobj with ⟨kv', hok⟩ | herr
            · rw [hok]; exact ihks hsub' kv'
            · rw [herr]; exact Or.inr rfl
        · have hstep : bptvStep f source opts path kv k = .ok kv := by
            simp [bptvStep, hcut, htyp, pure, Except.pure]
          rw [hstep]
          exact ihks hsub' kv

/-- If the traversal reaches a `null`, the path builder throws the
`Object.keys(null)` TypeError (given adequate fuel). -/
theorem bptv_nullReach_throws : ∀ (fuel : Nat) (source : JVal) (opts : NOpts)
    (kv : List (Key × JVal)) (path : List Key),
    sizeOf source < fuel → nullReachF fuel source = true →
    buildPathToValue fuel source opts kv path = .error (.exn toObjectExn) := by
  intro fuel
  induction fuel with
  | zero => intro source _ _ _ h _; exact absurd h (by omega)
  | succ f ih =>
    intro source opts kv path hsz hnull
    cases hk : objectKeys source with
    | error e =>
      rw [nullReachF_error f source e hk] at hnull
      simp at hnull
    | ok keys =>
      have hany : keys.any (nrPred f source) = true := by
        rw [nullReachF_ok f source keys hk] at hnull
        exact hnull
      rw [buildPathToValue_fold f source opts kv path keys hk]
      suffices hgen : ∀ (ks : List Key), (∀ x, x ∈ ks → x ∈ keys) →
          ks.any (nrPred f source) = true → ∀ kv,
          ks.foldlM (bptvStep f source opts path) kv = .error (.exn toObjectExn) by
        exact hgen keys (fun _ h => h) hany kv
      intro ks
      induction ks with
      | nil => intro _ habs _; simp at habs
      | cons k ks ihks =>
        intro hsub hanyc kv
        have hkmem : k ∈ keys := hsub k (List.mem_cons_self _ _)
        have hsub' : ∀ x, x ∈ ks → x ∈ keys :=
          fun x hx => hsub x (List.mem_cons_of_mem _ hx)
        rw [foldlM_except_cons]
        by_cases hpk : nrPred f source k = true
        · have hcut : (truthy (directReadD source k) &&
              hasOwnProp (directReadD source k) "value") = false := by
            by_contra hc
            rw [Bool.not_eq_false] at hc
            simp [nrPred, hc] at hpk
          have htyp : typeofObject (directReadD source k) = true := by
            by_contra hc
            rw [Bool.not_eq_true] at hc
            simp [nrPred, hcut, hc] at hpk
          have hrest : (isNullV (directReadD source k) ||
              nullReachF f (directReadD source k)) = true := by
            simp only [nrPred, hcut, htyp] at hpk
            simpa using hpk
          have hstep : bptvStep f source opts path kv k =
              buildPathToValue f (directReadD source k) opts kv (path ++ [k]) := by
            simp [bptvStep, hcut, htyp]
          rw [hstep]
          have hlt := sizeOf_directReadD_lt source keys k hk hkmem htyp
          cases hnul : isNullV (directReadD source k) with
          | true =>
            have hchild : directReadD source k = .vnull := by
              cases hc : directReadD source k <;> rw [hc] at hnul <;>
                simp [isNullV] at hnul
            rw [hchild] at hlt ⊢
            have h1 : sizeOf (JVal.vnull) = 1 := rfl
            obtain ⟨f', rfl⟩ : ∃ f', f = f' + 1 := ⟨f - 1, by omega⟩
            rw [buildPathToValue_null]
            rfl
          | false =>
            have hnr : nullReachF f (directReadD source k) = true := by
              rw [hnul] at hrest
              simpa using hrest
            have hflt : sizeOf (directReadD source k) < f := by omega
            rw [ih (directReadD source k) opts kv (path ++ [k]) hflt hnr]
            rfl
        · rw [Bool.not_eq_true] at hpk
          have hany' : ks.any (nrPred f source) = true := by
            rw [List.any_cons, hpk] at hanyc
            simpa using hanyc
          by_cases hcut : (truthy (directReadD source k) &&
              hasOwnProp (directReadD source k) "value") = true
          · have hstep : bptvStep f source opts path kv k =
                .ok (assocSet kv (dotJoin (path ++ [k]))
                  (directReadD (directReadD source k) "value")) := by
              simp [bptvStep, hcut, pure, Except.pure]
            rw [hstep]
            exact ihks hsub' hany' _
          · rw [Bool.not_eq_true] at hcut
            by_cases htyp : typeofObject (directReadD source k) = true
            · have hnn : isNullV (directReadD source k) = false ∧
                  nullReachF f (directReadD source k) = false := by
                simp only [nrPred, hcut, htyp] at hpk
                simp only [Bool.if_false_left] at hpk
                constructor
                · rcases hx : isNullV (directReadD source k) with _ | _
                  · rfl
                  · rw [hx] at hpk; simp at hpk
                · rcases hx : nullReachF f (directReadD source k) with _ | _
                  · rfl
                  · rw [hx] at hpk; simp at hpk
              have hstep : bptvStep f source opts path kv k =
                  buildPathToValue f (directReadD source k) opts kv (path ++ [k]) := by
                simp [bptvStep, hcut, htyp]
              rw [hstep]
              have hlt := sizeOf_directReadD_lt source keys k hk hkmem htyp
              cases hchild : directReadD source k with
              | vnull => rw [hchild] at hnn; simp [isNullV] at hnn
              | undef => rw [hchild] at htyp; simp [typeofObject] at htyp
              | bool b => rw [hchild] at htyp; simp [typeofObject] at htyp
              | num n => rw [hchild] at htyp; simp [typeofObject] at htyp
              | str st => rw [hchild] at htyp; simp [typeofObject] at htyp
              | arr es =>
                rw [hchild] at hlt
                rcases bptv_dichotomy f (JVal.arr es) opts kv (path ++ [k])
                    (idxKeys es.length) (by omega) rfl with ⟨kv', hok⟩ | herr
                · rw [hok]; exact ihks hsub' hany' kv'
                · rw [herr]; rfl
              | obj own pr sp ch mk =>
                rw [hchild] at hlt
                have hkobj : objectKeys (JVal.obj own pr sp ch mk) =
                    .ok ((own.filter (fun p => p.2.2)).map (fun p => p.1)) := rfl
                rcases bptv_dichotomy f (JVal.obj own pr sp ch mk) opts kv (path ++ [k])
                    ((own.filter (fun p => p.2.2)).map (fun p => p.1))
                    (by omega) hkobj with ⟨kv', hok⟩ | herr
                · rw [hok]; exact ihks hsub' hany' kv'
                · rw [herr]; rfl
            · rw [Bool.not_eq_true] at htyp
              have hstep : bptvStep f source opts path kv k = .ok kv := by
                simp [bptvStep, hcut, htyp, pure, Except.pure]
              rw [hstep]
              exact ihks hsub' hany' kv

end MergeDeep

namespace MergeDeep

/-! ## C10: a `null` in the fallback traversal fails the merge -/

/-- If the key loop reaches an unsafe key while the path builder throws on
this source, the loop ends in that thrown TypeError. -/
theorem runKeys_hitsUnsafe_throws (md : JVal → JVal → NOpts → MergeOut)
    (fuel : Nat) (opts : NOpts) (source : JVal)
    (hb : buildPathToValue fuel source opts [] [] = .error (.exn toObjectExn)) :
    ∀ (ks : List Key) (t : JVal), hitsUnsafe md fuel opts source ks t = true →
    ∃ tg, runKeys md fuel opts source ks t = .thrown toObjectExn tg := by
  intro ks
  induction ks with
  | nil => intro t h; simp [hitsUnsafe] at h
  | cons k ks ih =>
    intro t h
    rw [show hitsUnsafe md fuel opts source (k :: ks) t =
        (match propertyIsUnsafe opts t k with
         | .error _ => false
         | .ok true => true
         | .ok false =>
           match processKey md fuel opts source t k with
           | .ok t' => hitsUnsafe md fuel opts source ks t'
           | .error _ => false) from rfl] at h
    cases hu : propertyIsUnsafe opts t k with
    | error e => rw [hu] at h; simp at h
    | ok b =>
      rw [hu] at h
      cases b with
      | true =>
        have hpk : processKey md fuel opts source t k = .error (.exn toObjectExn, t) := by
          unfold processKey
          rw [hu, hb]
        refine ⟨t, ?_⟩
        simp only [runKeys]
        rw [hpk]
      | false =>
        simp only at h
        cases hp : processKey md fuel opts source t k with
        | ok t' =>
          rw [hp] at h
          obtain ⟨tg, hrk⟩ := ih t' h
          refine ⟨tg, ?_⟩
          simp only [runKeys]
          rw [hp]
          exact hrk
        | error p => rw [hp] at h; simp at h

/-- C10 (confirmed).  When the merge run classifies some top-level source
key unsafe (so the fallback path builder runs over the whole source tree)
and that traversal reaches a property value `null` -- at any depth, along
branches not cut off by a wrapper -- the builder recurses into the `null`,
`Object.keys(null)` throws, and `mergeDeep` surfaces the generic merge
failure. -/
theorem mergeDeep_null_path_fails (fuel : Nat) (t s : JVal) (opts : NOpts)
    (hsz : sizeOf s < fuel)
    (ht : isJSArray t = false) (hs : isJSArray s = false)
    (hnull : nullReachF fuel s = true)
    (hruns : runHitsUnsafeF fuel t s opts = true) :
    ∃ tg, mergeDeepF (fuel + 1) t s opts = .thrown genericMergeExn tg := by
  have hb := bptv_nullReach_throws fuel s opts [] [] hsz hnull
  unfold runHitsUnsafeF at hruns
  cases hk : getKeys s with
  | error e => rw [hk] at hruns; simp at hruns
  | ok keys =>
    rw [hk] at hruns
    simp only at hruns
    obtain ⟨tg, hrk⟩ :=
      runKeys_hitsUnsafe_throws (mergeDeepF fuel) fuel opts s hb keys t hruns
    refine ⟨tg, ?_⟩
    simp only [mergeDeepF, ht, hs]
    rw [show mergeTargetAndSourceGo (mergeDeepF fuel) fuel t s opts =
        runKeys (mergeDeepF fuel) fuel opts s keys t from by
      unfold mergeTargetAndSourceGo
      rw [hk]]
    rw [hrk]
    simp

/-- Witness for C10: merging `{rel: {x: null}}` into a target on which
`rel` is unsafe raises the generic merge failure. -/
theorem mergeDeep_null_path_fails_witness :
    ∃ tg, mergeDeepF 1201 exRelTarget exNullSource defaultNOpts =
      .thrown genericMergeExn tg :=
  mergeDeep_null_path_fails 1200 exRelTarget exNullSource defaultNOpts
    (by decide) rfl rfl rfl rfl

end MergeDeep

namespace MergeDeep

/-! ## Lemmas about `setOwn`, well-formed key lists and the predicates -/

/-- Writing back the value an own entry already holds leaves the property
list unchanged. -/
theorem setOwn_same (own : List (Key × JVal × Bool)) (k : Key) (v : JVal) (e : Bool)
    (h : ownLookup own k = some (v, e)) : setOwn own k v = own := by
  induction own with
  | nil => simp [ownLookup] at h
  | cons hd tl ih =>
    obtain ⟨k', v', e'⟩ := hd
    by_cases hk : k' = k
    · rw [show ownLookup ((k', v', e') :: tl) k =
          if k' = k then some (v', e') else ownLookup tl k from rfl, if_pos hk] at h
      injection h with h2
      rw [Prod.mk.injEq] at h2
      simp [setOwn, hk, h2.1.symm]
    · rw [show ownLookup ((k', v', e') :: tl) k =
          if k' = k then some (v', e') else ownLookup tl k from rfl, if_neg hk] at h
      simp [setOwn, hk, ih h]

/-- `setOwn` does not disturb other keys. -/
theorem ownLookup_setOwn_other (own : List (Key × JVal × Bool)) (k x : Key) (v : JVal)
    (hx : x ≠ k) : ownLookup (setOwn own k v) x = ownLookup own x := by
  induction own with
  | nil =>
    show (if k = x then some (v, true) else none) = none
    rw [if_neg (fun h => hx h.symm)]
  | cons hd tl ih =>
    obtain ⟨k', v', e'⟩ := hd
    by_cases hk : k' = k
    · rw [show setOwn ((k', v', e') :: tl) k v =
          if k' = k then (k', v, e') :: tl else (k', v', e') :: setOwn tl k v from rfl,
        if_pos hk]
      rw [show ownLookup ((k', v, e') :: tl) x =
          if k' = x then some (v, e') else ownLookup tl x from rfl]
      rw [show ownLookup ((k', v', e') :: tl) x =
          if k' = x then some (v', e') else ownLookup tl x from rfl]
      by_cases hq : k' = x
      · exact absurd (hq.symm.trans hk) hx
      · rw [if_neg hq, if_neg hq]
    · rw [show setOwn ((k', v', e') :: tl) k v =
          if k' = k then (k', v, e') :: tl else (k', v', e') :: setOwn tl k v from rfl,
        if_neg hk]
      rw [show ownLookup ((k', v', e') :: setOwn tl k v) x =
          if k' = x then some (v', e') else ownLookup (setOwn tl k v) x from rfl]
      rw [show ownLookup ((k', v', e') :: tl) x =
          if k' = x then some (v', e') else ownLookup tl x from rfl]
      rw [ih]

/-- After `setOwn`, the written key holds the written value (entry form). -/
theorem ownLookup_setOwn_pair (own : List (Key × JVal × Bool)) (k : Key) (v : JVal) :
    ∃ e, ownLookup (setOwn own k v) k = some (v, e) := by
  have h := ownLookup_setOwn_fst own k v
  cases hL : ownLookup (setOwn own k v) k with
  | none => rw [hL] at h; simp at h
  | some p =>
    rw [hL] at h
    obtain ⟨a, b⟩ := p
    simp only [Option.map, Option.some.injEq] at h
    exact ⟨b, by rw [h]⟩

/-- `contains` answers false exactly off the list. -/
theorem contains_eq_false_iff (l : List Key) (k : Key) :
    l.contains k = false ↔ k ∉ l := by
  constructor
  · intro h hm
    have hc : l.contains k = true := by
      rw [show l.contains k = List.elem k l from rfl, List.elem_iff]
      exact hm
    rw [h] at hc
    exact Bool.noConfusion hc
  · intro h
    cases hc : l.contains k
    · rfl
    · exfalso
      apply h
      rw [show l.contains k = List.elem k l from rfl, List.elem_iff] at hc
      exact hc

/-- With pairwise-distinct keys, the first match for a key of an entry is
that entry. -/
theorem ownLookup_of_nodup : ∀ (own : List (Key × JVal × Bool)) (k : Key)
    (v : JVal) (e : Bool), (own.map (fun p => p.1)).Nodup → (k, v, e) ∈ own →
    ownLookup own k = some (v, e) := by
  intro own
  induction own with
  | nil => intro k v e _ h; simp at h
  | cons hd tl ih =>
    intro k v e hnd h
    obtain ⟨k', v', e'⟩ := hd
    simp only [List.map_cons, List.nodup_cons] at hnd
    rcases List.mem_cons.mp h with h1 | h1
    · rw [Prod.mk.injEq] at h1
      obtain ⟨hk, hve⟩ := h1
      rw [show ownLookup ((k', v', e') :: tl) k =
          if k' = k then some (v', e') else ownLookup tl k from rfl, if_pos hk.symm]
      rw [Prod.mk.injEq] at hve
      rw [hve.1, hve.2]
    · by_cases hk : k' = k
      · exfalso
        apply hnd.1
        rw [hk]
        exact List.mem_map.mpr ⟨(k, v, e), h1, rfl⟩
      · rw [show ownLookup ((k', v', e') :: tl) k =
            if k' = k then some (v', e') else ownLookup tl k from rfl, if_neg hk]
        exact ih k v e hnd.2 h1

/-- An enumerated key of an object names an own enumerable entry. -/
theorem mem_keys_entry (own : List (Key × JVal × Bool)) (k : Key)
    (h : k ∈ (own.filter (fun p => p.2.2)).map (fun p => p.1)) :
    ∃ v, (k, v, true) ∈ own := by
  obtain ⟨⟨pk, pv, pe⟩, hp, rfl⟩ := List.mem_map.mp h
  have hmem := List.mem_filter.mp hp
  have hpe : pe = true := by simpa using hmem.2
  subst hpe
  exact ⟨pv, hmem.1⟩

/-- `keysNodup` agrees with `List.Nodup`. -/
theorem keysNodup_iff_nodup (l : List Key) : keysNodup l = true ↔ l.Nodup := by
  induction l with
  | nil => simp [keysNodup]
  | cons k rest ih =>
    simp only [keysNodup, Bool.and_eq_true, Bool.not_eq_true', List.nodup_cons]
    rw [contains_eq_false_iff, ih]

/-- The enumerated key list of a well-formed object has no duplicates. -/
theorem objectKeys_nodup (own : List (Key × JVal × Bool))
    (hnd : keysNodup (own.map (fun p => p.1)) = true) :
    ((own.filter (fun p => p.2.2)).map (fun p => p.1)).Nodup := by
  have h1 : ((own.filter (fun p => p.2.2)).map (fun p => p.1)).Sublist
      (own.map (fun p => p.1)) :=
    (List.filter_sublist _).map _
  exact ((keysNodup_iff_nodup _).mp hnd).sublist h1

/-- A mergeable value can be re-merged into itself (it is a non-null
object or array). -/
theorem selfRemergeSafe_of_mergeable (v : JVal) (h : isMergeableObject v = true) :
    selfRemergeSafe v = true := by
  cases v <;> simp_all [isMergeableObject, isNonNullObject, truthy, typeofObject,
    selfRemergeSafe]

/-- `noWrapF` on an object constrains every own entry. -/
theorem noWrapF_entry (g : Nat) (own : List (Key × JVal × Bool))
    (pr : List (Key × JVal)) (sp ch : Bool) (mk : Option (List Key))
    (h : noWrapF (g + 1) (.obj own pr sp ch mk) = true)
    (k : Key) (v : JVal) (e : Bool) (hm : (k, v, e) ∈ own) :
    isWrapperLike v = false ∧ noWrapF g v = true := by
  simp only [noWrapF, List.all_eq_true] at h
  have := h (k, v, e) hm
  simp only [Bool.and_eq_true, Bool.not_eq_true'] at this
  exact this

/-- `noWrapF` on an array constrains every element. -/
theorem noWrapF_elem (g : Nat) (es : List JVal)
    (h : noWrapF (g + 1) (.arr es) = true) (v : JVal) (hm : v ∈ es) :
    isWrapperLike v = false ∧ noWrapF g v = true := by
  simp only [noWrapF, List.all_eq_true] at h
  have := h v hm
  simp only [Bool.and_eq_true, Bool.not_eq_true'] at this
  exact this

/-- `noCFF` on an object: no entry is named `constructor.fields`, and every
value is recursively clean. -/
theorem noCFF_entry (g : Nat) (own : List (Key × JVal × Bool))
    (pr : List (Key × JVal)) (sp ch : Bool) (mk : Option (List Key))
    (h : noCFF (g + 1) (.obj own pr sp ch mk) = true)
    (k : Key) (v : JVal) (e : Bool) (hm : (k, v, e) ∈ own) :
    k ≠ "constructor.fields" ∧ noCFF g v = true := by
  simp only [noCFF, List.all_eq_true] at h
  have := h (k, v, e) hm
  simp only [Bool.and_eq_true] at this
  refine ⟨?_, this.2⟩
  have h1 := this.1
  simp only [Bool.not_eq_true'] at h1
  intro hc
  rw [hc] at h1
  simp at h1

/-- `wfKeysF` on an object: distinct keys, recursively well-formed values. -/
theorem wfKeysF_entry (g : Nat) (own : List (Key × JVal × Bool))
    (pr : List (Key × JVal)) (sp ch : Bool) (mk : Option (List Key))
    (h : wfKeysF (g + 1) (.obj own pr sp ch mk) = true) :
    keysNodup (own.map (fun p => p.1)) = true ∧
      ∀ (k : Key) (v : JVal) (e : Bool), (k, v, e) ∈ own → wfKeysF g v = true := by
  simp only [wfKeysF, Bool.and_eq_true, List.all_eq_true] at h
  exact ⟨h.1, fun k v e hm => h.2 (k, v, e) hm⟩

/-- A successful key loop returns its final target in both components. -/
theorem runKeys_ok_eq (md : JVal → JVal → NOpts → MergeOut) (fuel : Nat)
    (opts : NOpts) (source : JVal) :
    ∀ (ks : List Key) (t a b : JVal),
      runKeys md fuel opts source ks t = .ok a b → a = b := by
  intro ks
  induction ks with
  | nil =>
    intro t a b h
    simp only [runKeys] at h
    injection h with h1 h2
    rw [← h1, ← h2]
  | cons k ks ih =>
    intro t a b h
    simp only [runKeys] at h
    cases hp : processKey md fuel opts source t k with
    | ok t' => rw [hp] at h; exact ih t' a b h
    | error p =>
      obtain ⟨m, t'⟩ := p
      cases m <;> rw [hp] at h <;> simp at h

end MergeDeep

namespace MergeDeep

/-! ## The path builder under wrapper-free sources -/

/-- In a wrapper-free source, the value the traversal fetches for any
enumerated key is itself no wrapper, and object-typed children are
recursively wrapper-free. -/
theorem noWrap_key_fact (g : Nat) (s : JVal) (keys : List Key) (k : Key)
    (hnw : noWrapF (g + 1) s = true) (hk : objectKeys s = .ok keys)
    (hmem : k ∈ keys) :
    isWrapperLike (directReadD s k) = false ∧
      (typeofObject (directReadD s k) = true → noWrapF g (directReadD s k) = true) := by
  cases s with
  | vnull => simp [objectKeys, toObjectExn] at hk
  | undef => simp [objectKeys, toObjectExn] at hk
  | bool b =>
    simp only [objectKeys, Except.ok.injEq] at hk
    subst hk; simp at hmem
  | num n =>
    simp only [objectKeys, Except.ok.injEq] at hk
    subst hk; simp at hmem
  | str st =>
    by_cases hlen : k = "length"
    · rw [show directReadD (JVal.str st) k = .num st.length from by
        simp [directReadD, hlen]]
      exact ⟨by simp [isWrapperLike, hasOwnProp, instanceofChange],
        fun h => by simp [typeofObject] at h⟩
    · rw [show directReadD (JVal.str st) k =
          (idxLookup (st.toList.map (fun c => JVal.str (String.mk [c]))) k).getD .undef
          from by simp [directReadD, hlen]]
      cases hl : idxLookup (st.toList.map (fun c => JVal.str (String.mk [c]))) k with
      | none =>
        exact ⟨by simp [isWrapperLike, truthy, hasOwnProp, instanceofChange],
          fun h => by simp [typeofObject] at h⟩
      | some w =>
        have hw := idxLookup_mem _ _ _ hl
        simp only [List.mem_map] at hw
        obtain ⟨c, _, rfl⟩ := hw
        have hnov : hasOwnProp (JVal.str (String.mk [c])) "value" = false := rfl
        exact ⟨by simp [isWrapperLike, hnov, instanceofChange],
          fun h => by simp [typeofObject] at h⟩
  | arr es =>
    by_cases hlen : k = "length"
    · rw [show directReadD (JVal.arr es) k = .num es.length from by
        simp [directReadD, hlen]]
      exact ⟨by simp [isWrapperLike, hasOwnProp, instanceofChange],
        fun h => by simp [typeofObject] at h⟩
    · rw [show directReadD (JVal.arr es) k = (idxLookup es k).getD .undef from by
        simp [directReadD, hlen]]
      cases hl : idxLookup es k with
      | none =>
        exact ⟨by simp [isWrapperLike, truthy, hasOwnProp, instanceofChange],
          fun h => by simp [typeofObject] at h⟩
      | some w =>
        have hw := idxLookup_mem _ _ _ hl
        have hfact := noWrapF_elem g es hnw w hw
        exact ⟨hfact.1, fun _ => hfact.2⟩
  | obj own pr sp ch mk =>
    simp only [objectKeys, Except.ok.injEq] at hk
    subst hk
    have hsome := ownLookup_isSome_of_mem_keys own k hmem
    cases hL : ownLookup own k with
    | none => rw [hL] at hsome; simp at hsome
    | some p =>
      obtain ⟨v0, e0⟩ := p
      have hment := ownLookup_mem own k (v0, e0) hL
      have hfact := noWrapF_entry g own pr sp ch mk hnw k v0 e0 hment
      rw [show directReadD (JVal.obj own pr sp ch mk) k = v0 from by
        simp [directReadD, hL]]
      exact ⟨hfact.1, fun _ => hfact.2⟩

/-- Over a wrapper-free source the path builder records nothing: a
successful run returns the accumulator unchanged. -/
theorem bptv_noWrap_id : ∀ (fuel g : Nat) (s : JVal) (opts : NOpts)
    (kv kv' : List (Key × JVal)) (path : List Key),
    sizeOf s < g → noWrapF g s = true →
    buildPathToValue fuel s opts kv path = .ok kv' → kv' = kv := by
  intro fuel
  induction fuel with
  | zero => intro g s opts kv kv' path _ _ h; simp [buildPathToValue] at h
  | succ f ih =>
    intro g s opts kv kv' path hsz hnw hb
    obtain ⟨g', rfl⟩ : ∃ g', g = g' + 1 := by
      refine ⟨g - 1, ?_⟩
      have h1 : (1 : Nat) ≤ sizeOf s := by
        cases s <;> simp_arith
      omega
    cases hk : objectKeys s with
    | error e =>
      rw [show buildPathToValue (f + 1) s opts kv path = .error (.exn e) from by
        simp [buildPathToValue, hk, Except.mapError, Bind.bind, Except.bind]] at hb
      exact absurd hb (by simp)
    | ok keys =>
      rw [buildPathToValue_fold f s opts kv path keys hk] at hb
      have hsz' : sizeOf s ≤ g' := by omega
      clear hsz
      revert hb
      suffices hgen : ∀ (ks : List Key), (∀ x, x ∈ ks → x ∈ keys) → ∀ kv kv',
          ks.foldlM (bptvStep f s opts path) kv = .ok kv' → kv' = kv by
        intro hb
        exact hgen keys (fun _ h => h) kv kv' hb
      intro ks
      induction ks with
      | nil =>
        intro _ kv kv' h
        simp only [List.foldlM] at h
        injection h with h1
        exact h1.symm
      | cons k ks ihks =>
        intro hsub kv kv' h
        have hkmem : k ∈ keys := hsub k (List.mem_cons_self _ _)
        have hsub' : ∀ x, x ∈ ks → x ∈ keys :=
          fun x hx => hsub x (List.mem_cons_of_mem _ hx)
        rw [foldlM_except_cons] at h
        have hfact := noWrap_key_fact g' s keys k hnw hk hkmem
        by_cases hcut : (truthy (directReadD s k) &&
            hasOwnProp (directReadD s k) "value") = true
        · exfalso
          have hwl : isWrapperLike (directReadD s k) = true := by
            simp [isWrapperLike, hcut]
          rw [hfact.1] at hwl
          exact Bool.noConfusion hwl
        · rw [Bool.not_eq_true] at hcut
          by_cases htyp : typeofObject (directReadD s k) = true
          · have hstep : bptvStep f s opts path kv k =
                buildPathToValue f (directReadD s k) opts kv (path ++ [k]) := by
              simp [bptvStep, hcut, htyp]
            rw [hstep] at h
            cases hbc : buildPathToValue f (directReadD s k) opts kv (path ++ [k]) with
            | error m => rw [hbc] at h; exact absurd h (by simp [Except.bind])
            | ok kvmid =>
              rw [hbc] at h
              have hlt := sizeOf_directReadD_lt s keys k hk hkmem htyp
              have hmid : kvmid = kv :=
                ih g' (directReadD s k) opts kv kvmid (path ++ [k])
                  (by omega) (hfact.2 htyp) hbc
              rw [hmid] at h
              rw [show ((Except.ok kv).bind fun b' =>
                  List.foldlM (bptvStep f s opts path) b' ks) =
                  List.foldlM (bptvStep f s opts path) kv ks from rfl] at h
              exact ihks hsub' kv kv' h
          · rw [Bool.not_eq_true] at htyp
            have hstep : bptvStep f s opts path kv k = .ok kv := by
              simp [bptvStep, hcut, htyp, pure, Except.pure]
            rw [hstep] at h
            exact ihks hsub' kv kv' h

end MergeDeep

namespace MergeDeep

/-! ## Case lemmas for one key of the merge loop -/

/-- Unfolding `mergeDeep` in the object-merge case. -/
theorem mergeDeepF_nonarray (f : Nat) (t s : JVal) (o : NOpts)
    (ht : isJSArray t = false) (hs : isJSArray s = false) :
    mergeDeepF (f + 1) t s o =
      match mergeTargetAndSourceGo (mergeDeepF f) f t s o with
      | .ok r t' => .ok r t'
      | .thrown _ t' => .thrown genericMergeExn t'
      | .fuelOut t' => .fuelOut t' := by
  simp [mergeDeepF, ht, hs]

/-- The dynamic-field read under the default accessor on an object. -/
theorem hasEmber_default_obj (own : List (Key × JVal × Bool)) (pr : List (Key × JVal))
    (sp ch : Bool) (mk : Option (List Key)) (k : Key) :
    hasEmberDataProperty defaultNOpts (.obj own pr sp ch mk) k =
      .ok (instanceofMap (directReadD (.obj own pr sp ch mk) "constructor.fields") &&
        mapHas (directReadD (.obj own pr sp ch mk) "constructor.fields") k) := rfl

/-- The classifier after a negative dynamic-field test. -/
theorem propertyIsUnsafe_of_ember_false (opts : NOpts) (t : JVal) (k : Key)
    (he : hasEmberDataProperty opts t k = .ok false) :
    propertyIsUnsafe opts t k =
      .ok (propertyIsOnObject t k &&
        !(hasOwnProp t k && propertyIsEnumerable t k)) := by
  simp [propertyIsUnsafe, Bind.bind, Except.bind, he, pure, Except.pure]

/-- The classifier after a positive dynamic-field test. -/
theorem propertyIsUnsafe_of_ember_true (opts : NOpts) (t : JVal) (k : Key)
    (he : hasEmberDataProperty opts t k = .ok true) :
    propertyIsUnsafe opts t k = .ok false := by
  simp [propertyIsUnsafe, Bind.bind, Except.bind, he, pure, Except.pure]

/-- A key held as an own enumerable property is always classified safe
(under the default accessors). -/
theorem propertyIsUnsafe_own_enum (own : List (Key × JVal × Bool))
    (pr : List (Key × JVal)) (sp ch : Bool) (mk : Option (List Key))
    (k : Key) (v : JVal) (hL : ownLookup own k = some (v, true)) :
    propertyIsUnsafe defaultNOpts (.obj own pr sp ch mk) k = .ok false := by
  have hemb := hasEmber_default_obj own pr sp ch mk k
  cases hbe : (instanceofMap (directReadD (.obj own pr sp ch mk) "constructor.fields") &&
      mapHas (directReadD (.obj own pr sp ch mk) "constructor.fields") k) with
  | false =>
    rw [hbe] at hemb
    rw [propertyIsUnsafe_of_ember_false _ _ _ hemb]
    have h1 : hasOwnProp (JVal.obj own pr sp ch mk) k = true := by
      simp [hasOwnProp, hL]
    have h2 : propertyIsEnumerable (JVal.obj own pr sp ch mk) k = true := by
      simp [propertyIsEnumerable, hL]
    rw [h1, h2]
    simp
  | true =>
    rw [hbe] at hemb
    exact propertyIsUnsafe_of_ember_true _ _ _ hemb

/-- Mergeable values are truthy. -/
theorem truthy_of_mergeable (v : JVal) (h : isMergeableObject v = true) :
    truthy v = true := by
  cases v <;> simp_all [isMergeableObject, isNonNullObject, truthy, typeofObject]

/-- A non-wrapper that is truthy owns no `value` and is no `Change`. -/
theorem wrapper_parts (v : JVal) (h : isWrapperLike v = false) :
    instanceofChange v = false ∧
      (truthy v = true → hasOwnProp v "value" = false) := by
  simp only [isWrapperLike, Bool.or_eq_false_iff, Bool.and_eq_false_iff] at h
  refine ⟨h.2, fun ht => ?_⟩
  rcases h.1 with h1 | h1
  · rw [ht] at h1; exact Bool.noConfusion h1
  · exact h1

/-- An own entry's value is structurally smaller than the object. -/
theorem sizeOf_entry_lt (own : List (Key × JVal × Bool)) (pr : List (Key × JVal))
    (sp ch : Bool) (mk : Option (List Key)) (k : Key) (v : JVal) (e : Bool)
    (hm : (k, v, e) ∈ own) : sizeOf v < sizeOf (JVal.obj own pr sp ch mk) := by
  have h1 := List.sizeOf_lt_sizeOf_of_mem hm
  have h2 : sizeOf ((k, v, e) : Key × JVal × Bool) =
      1 + sizeOf k + (1 + sizeOf v + sizeOf e) := by
    simp [Prod.mk.sizeOf_spec]
  have h3 : sizeOf (JVal.obj own pr sp ch mk) =
      1 + sizeOf own + sizeOf pr + sizeOf sp + sizeOf ch + sizeOf mk := by
    simp [JVal.obj.sizeOf_spec]
  omega

/-- `processKey` on an unsafe key whose wrapper search comes back empty is
a no-op. -/
theorem processKey_unsafe_skip (md : JVal → JVal → NOpts → MergeOut) (fuel : Nat)
    (opts : NOpts) (source tgt : JVal) (k : Key)
    (hu : propertyIsUnsafe opts tgt k = .ok true)
    (hb : buildPathToValue fuel source opts [] [] = .ok []) :
    processKey md fuel opts source tgt k = .ok tgt := by
  unfold processKey
  rw [hu, hb]
  rfl

/-- `processKey` on a safe key taking the recursive-merge branch. -/
theorem processKey_recurse (md : JVal → JVal → NOpts → MergeOut) (fuel : Nat)
    (opts : NOpts) (source tgt : JVal) (k : Key) (tv sv ret tg2 t' : JVal)
    (hu : propertyIsUnsafe opts tgt k = .ok false)
    (hc : (propertyIsOnObject tgt k && isMergeableObject (directReadD source k) &&
      !hasOwnProp (directReadD source k) "value") = true)
    (hg1 : opts.safeGet tgt k = .ok tv)
    (hg2 : opts.safeGet source k = .ok sv)
    (hmd : md tv sv opts = .ok ret tg2)
    (hset : opts.safeSet tgt k ret = .ok t') :
    processKey md fuel opts source tgt k = .ok t' := by
  unfold processKey
  rw [hu]
  simp only [hc, if_true]
  simp only [hg1, hg2, hmd, hset]

/-- `processKey` on a safe key taking the plain leaf-assignment branch. -/
theorem processKey_leaf (md : JVal → JVal → NOpts → MergeOut) (fuel : Nat)
    (opts : NOpts) (source tgt : JVal) (k : Key) (t' : JVal)
    (hu : propertyIsUnsafe opts tgt k = .ok false)
    (hc : (propertyIsOnObject tgt k && isMergeableObject (directReadD source k) &&
      !hasOwnProp (directReadD source k) "value") = false)
    (hch : (truthy (directReadD source k) &&
      instanceofChange (directReadD source k)) = false)
    (hset : opts.safeSet tgt k (directReadD source k) = .ok t') :
    processKey md fuel opts source tgt k = .ok t' := by
  unfold processKey
  rw [hu]
  simp only [hc, Bool.false_eq_true, if_false, hch, hset]

end MergeDeep

namespace MergeDeep

/-- Merging a wrapper-free, well-formed, re-mergeable value into itself is
the identity (every safe key re-assigns the value it already holds). -/
theorem mergeDeep_self : ∀ (fuel : Nat) (s : JVal),
    sizeOf s < fuel → selfRemergeSafe s = true → noWrapF fuel s = true →
    wfKeysF fuel s = true →
    mergeDeepF fuel s s defaultNOpts = .ok s s := by
  intro fuel
  induction fuel with
  | zero => intro s h _ _ _; exact absurd h (by omega)
  | succ f ih =>
    intro s hsz hsr hnw hwf
    cases s with
    | vnull => simp [selfRemergeSafe] at hsr
    | undef => simp [selfRemergeSafe] at hsr
    | bool b => rfl
    | num n => rfl
    | str st =>
      have hst : st = "" := by
        have h1 : st.isEmpty = true := hsr
        simpa [String.isEmpty_iff] using h1
      subst hst
      rfl
    | arr es => rfl
    | obj own pr sp ch mk =>
      have hkeys : getKeys (JVal.obj own pr sp ch mk) =
          .ok ((own.filter (fun p => p.2.2)).map (fun p => p.1)) := rfl
      have hwfe := wfKeysF_entry f own pr sp ch mk hwf
      have hloop : ∀ (ks : List Key),
          (∀ x, x ∈ ks → x ∈ (own.filter (fun p => p.2.2)).map (fun p => p.1)) →
          runKeys (mergeDeepF f) f defaultNOpts (JVal.obj own pr sp ch mk) ks
            (JVal.obj own pr sp ch mk) =
            .ok (JVal.obj own pr sp ch mk) (JVal.obj own pr sp ch mk) := by
        intro ks
        induction ks with
        | nil => intro _; rfl
        | cons k ks ihks =>
          intro hsub
          have hkmem := hsub k (List.mem_cons_self _ _)
          have hsub' : ∀ x, x ∈ ks →
              x ∈ (own.filter (fun p => p.2.2)).map (fun p => p.1) :=
            fun x hx => hsub x (List.mem_cons_of_mem _ hx)
          obtain ⟨v, hventry⟩ := mem_keys_entry own k hkmem
          have hnd : (own.map (fun p => p.1)).Nodup :=
            (keysNodup_iff_nodup _).mp hwfe.1
          have hL : ownLookup own k = some (v, true) :=
            ownLookup_of_nodup own k v true hnd hventry
          have hu := propertyIsUnsafe_own_enum own pr sp ch mk k v hL
          have hsval : directReadD (JVal.obj own pr sp ch mk) k = v := by
            simp [directReadD, hL]
          have hfct := noWrapF_entry f own pr sp ch mk hnw k v true hventry
          have hwp := wrapper_parts v hfct.1
          have hget : defaultNOpts.safeGet (JVal.obj own pr sp ch mk) k = .ok v := by
            rw [show defaultNOpts.safeGet (JVal.obj own pr sp ch mk) k =
                .ok (directReadD (JVal.obj own pr sp ch mk) k) from rfl, hsval]
          have hset : defaultNOpts.safeSet (JVal.obj own pr sp ch mk) k v =
              .ok (JVal.obj own pr sp ch mk) := by
            rw [show defaultNOpts.safeSet (JVal.obj own pr sp ch mk) k v =
                .ok (.obj (setOwn own k v) pr sp ch mk) from rfl]
            rw [setOwn_same own k v true hL]
          have hone : processKey (mergeDeepF f) f defaultNOpts (JVal.obj own pr sp ch mk)
              (JVal.obj own pr sp ch mk) k = .ok (JVal.obj own pr sp ch mk) := by
            cases hm : isMergeableObject v with
            | true =>
              have htr := truthy_of_mergeable v hm
              have hnoval := hwp.2 htr
              have hon : propertyIsOnObject (JVal.obj own pr sp ch mk) k = true := by
                simp [propertyIsOnObject, jsIn, hL]
              have hcond : (propertyIsOnObject (JVal.obj own pr sp ch mk) k &&
                  isMergeableObject (directReadD (JVal.obj own pr sp ch mk) k) &&
                  !hasOwnProp (directReadD (JVal.obj own pr sp ch mk) k) "value") = true := by
                rw [hsval, hon, hm, hnoval]
                rfl
              have hinner : mergeDeepF f v v defaultNOpts = .ok v v := by
                apply ih v
                · have := sizeOf_entry_lt own pr sp ch mk k v true hventry
                  omega
                · exact selfRemergeSafe_of_mergeable v hm
                · exact hfct.2
                · exact hwfe.2 k v true hventry
              exact processKey_recurse (mergeDeepF f) f defaultNOpts
                (JVal.obj own pr sp ch mk) (JVal.obj own pr sp ch mk) k v v v v
                (JVal.obj own pr sp ch mk) hu hcond hget hget hinner hset
            | false =>
              have hcond : (propertyIsOnObject (JVal.obj own pr sp ch mk) k &&
                  isMergeableObject (directReadD (JVal.obj own pr sp ch mk) k) &&
                  !hasOwnProp (directReadD (JVal.obj own pr sp ch mk) k) "value") = false := by
                rw [hsval, hm]
                simp
              have hch : (truthy (directReadD (JVal.obj own pr sp ch mk) k) &&
                  instanceofChange (directReadD (JVal.obj own pr sp ch mk) k)) = false := by
                rw [hsval, hwp.1]
                simp
              apply processKey_leaf (mergeDeepF f) f defaultNOpts
                (JVal.obj own pr sp ch mk) (JVal.obj own pr sp ch mk) k
                (JVal.obj own pr sp ch mk) hu hcond hch
              rw [hsval]
              exact hset
          simp only [runKeys]
          rw [hone]
          exact ihks hsub'
      rw [mergeDeepF_nonarray f (JVal.obj own pr sp ch mk) (JVal.obj own pr sp ch mk)
        defaultNOpts rfl rfl]
      rw [show mergeTargetAndSourceGo (mergeDeepF f) f (JVal.obj own pr sp ch mk)
          (JVal.obj own pr sp ch mk) defaultNOpts =
          runKeys (mergeDeepF f) f defaultNOpts (JVal.obj own pr sp ch mk)
            ((own.filter (fun p => p.2.2)).map (fun p => p.1))
            (JVal.obj own pr sp ch mk) from by
        unfold mergeTargetAndSourceGo
        rw [hkeys]]
      rw [hloop ((own.filter (fun p => p.2.2)).map (fun p => p.1)) (fun _ h => h)]

end MergeDeep

namespace MergeDeep

/-- Reads on an object depend only on the own entry of the key and the
shared prototype list. -/
theorem directReadD_obj_congr (rown town : List (Key × JVal × Bool))
    (pr : List (Key × JVal)) (sp ch : Bool) (mk : Option (List Key)) (k : Key)
    (h : ownLookup rown k = ownLookup town k) :
    directReadD (.obj rown pr sp ch mk) k = directReadD (.obj town pr sp ch mk) k := by
  simp only [directReadD]
  rw [h]

/-- The raw in-check on an object depends only on the own entry of the key
and the shared prototype list. -/
theorem jsIn_obj_congr (rown town : List (Key × JVal × Bool))
    (pr : List (Key × JVal)) (sp ch : Bool) (mk : Option (List Key)) (k : Key)
    (h : ownLookup rown k = ownLookup town k) :
    jsIn (.obj rown pr sp ch mk) k = jsIn (.obj town pr sp ch mk) k := by
  simp only [jsIn]
  rw [h]

/-- `propertyIsOnObject` congruence for objects agreeing at the key. -/
theorem propertyIsOnObject_obj_congr (rown town : List (Key × JVal × Bool))
    (pr : List (Key × JVal)) (sp ch : Bool) (mk : Option (List Key)) (k : Key)
    (h : ownLookup rown k = ownLookup town k) :
    propertyIsOnObject (.obj rown pr sp ch mk) k =
      propertyIsOnObject (.obj town pr sp ch mk) k := by
  unfold propertyIsOnObject
  rw [jsIn_obj_congr rown town pr sp ch mk k h]

/-- `hasOwnProp` congruence for objects agreeing at the key. -/
theorem hasOwnProp_obj_congr (rown town : List (Key × JVal × Bool))
    (pr : List (Key × JVal)) (sp ch : Bool) (mk : Option (List Key)) (k : Key)
    (h : ownLookup rown k = ownLookup town k) :
    hasOwnProp (.obj rown pr sp ch mk) k = hasOwnProp (.obj town pr sp ch mk) k := by
  simp only [hasOwnProp]
  rw [h]

/-- `propertyIsEnumerable` congruence for objects agreeing at the key. -/
theorem propertyIsEnumerable_obj_congr (rown town : List (Key × JVal × Bool))
    (pr : List (Key × JVal)) (sp ch : Bool) (mk : Option (List Key)) (k : Key)
    (h : ownLookup rown k = ownLookup town k) :
    propertyIsEnumerable (.obj rown pr sp ch mk) k =
      propertyIsEnumerable (.obj town pr sp ch mk) k := by
  simp only [propertyIsEnumerable]
  rw [h]

/-- The classifier on an object target when the dynamic-field test answers
true. -/
theorem propertyIsUnsafe_obj_emb_true (own : List (Key × JVal × Bool))
    (pr : List (Key × JVal)) (sp ch : Bool) (mk : Option (List Key)) (k : Key)
    (hbe : (instanceofMap (directReadD (.obj own pr sp ch mk) "constructor.fields") &&
      mapHas (directReadD (.obj own pr sp ch mk) "constructor.fields") k) = true) :
    propertyIsUnsafe defaultNOpts (.obj own pr sp ch mk) k = .ok false := by
  have hemb := hasEmber_default_obj own pr sp ch mk k
  rw [hbe] at hemb
  exact propertyIsUnsafe_of_ember_true _ _ _ hemb

/-- The classifier on an object target when the dynamic-field test answers
false. -/
theorem propertyIsUnsafe_obj_emb_false (own : List (Key × JVal × Bool))
    (pr : List (Key × JVal)) (sp ch : Bool) (mk : Option (List Key)) (k : Key)
    (hbe : (instanceofMap (directReadD (.obj own pr sp ch mk) "constructor.fields") &&
      mapHas (directReadD (.obj own pr sp ch mk) "constructor.fields") k) = false) :
    propertyIsUnsafe defaultNOpts (.obj own pr sp ch mk) k =
      .ok (propertyIsOnObject (.obj own pr sp ch mk) k &&
        !(hasOwnProp (.obj own pr sp ch mk) k &&
          propertyIsEnumerable (.obj own pr sp ch mk) k)) := by
  have hemb := hasEmber_default_obj own pr sp ch mk k
  rw [hbe] at hemb
  exact propertyIsUnsafe_of_ember_false _ _ _ hemb

/-- Overwriting an existing own entry keeps its enumerability bit. -/
theorem ownLookup_setOwn_some (own : List (Key × JVal × Bool)) (k : Key)
    (v w : JVal) (e : Bool) (h : ownLookup own k = some (w, e)) :
    ownLookup (setOwn own k v) k = some (v, e) := by
  induction own with
  | nil => simp [ownLookup] at h
  | cons hd tl ih =>
    obtain ⟨k', v', e'⟩ := hd
    by_cases hk : k' = k
    · rw [show ownLookup ((k', v', e') :: tl) k =
          if k' = k then some (v', e') else ownLookup tl k from rfl, if_pos hk] at h
      injection h with h2
      rw [Prod.mk.injEq] at h2
      rw [show setOwn ((k', v', e') :: tl) k v =
          if k' = k then (k', v, e') :: tl else (k', v', e') :: setOwn tl k v from rfl,
        if_pos hk]
      rw [show ownLookup ((k', v, e') :: tl) k =
          if k' = k then some (v, e') else ownLookup tl k from rfl, if_pos hk]
      rw [h2.2]
    · rw [show ownLookup ((k', v', e') :: tl) k =
          if k' = k then some (v', e') else ownLookup tl k from rfl, if_neg hk] at h
      rw [show setOwn ((k', v', e') :: tl) k v =
          if k' = k then (k', v, e') :: tl else (k', v', e') :: setOwn tl k v from rfl,
        if_neg hk]
      rw [show ownLookup ((k', v', e') :: setOwn tl k v) k =
          if k' = k then some (v', e') else ownLookup (setOwn tl k v) k from rfl,
        if_neg hk]
      exact ih h

/-- Writing a fresh key appends an enumerable entry. -/
theorem ownLookup_setOwn_none (own : List (Key × JVal × Bool)) (k : Key)
    (v : JVal) (h : ownLookup own k = none) :
    ownLookup (setOwn own k v) k = some (v, true) := by
  induction own with
  | nil =>
    show (if k = k then some (v, true) else none) = some (v, true)
    rw [if_pos rfl]
  | cons hd tl ih =>
    obtain ⟨k', v', e'⟩ := hd
    by_cases hk : k' = k
    · rw [show ownLookup ((k', v', e') :: tl) k =
          if k' = k then some (v', e') else ownLookup tl k from rfl, if_pos hk] at h
      exact absurd h (by simp)
    · rw [show ownLookup ((k', v', e') :: tl) k =
          if k' = k then some (v', e') else ownLookup tl k from rfl, if_neg hk] at h
      rw [show setOwn ((k', v', e') :: tl) k v =
          if k' = k then (k', v, e') :: tl else (k', v', e') :: setOwn tl k v from rfl,
        if_neg hk]
      rw [show ownLookup ((k', v', e') :: setOwn tl k v) k =
          if k' = k then some (v', e') else ownLookup (setOwn tl k v) k from rfl,
        if_neg hk]
      exact ih h

/-- On a target where the in-check degrades to false and reads succeed, the
classifier always answers safe. -/
theorem propertyIsUnsafe_prim_safe (t : JVal) (k : Key)
    (hno : propertyIsOnObject t k = false)
    (hge : ∀ key, defaultNOpts.safeGet t key = .ok (directReadD t key)) :
    propertyIsUnsafe defaultNOpts t k = .ok false := by
  have hemb : hasEmberDataProperty defaultNOpts t k =
      .ok (instanceofMap (directReadD t "constructor.fields") &&
        mapHas (directReadD t "constructor.fields") k) := by
    unfold hasEmberDataProperty
    rw [show defaultNOpts.safeGet t "constructor.fields" =
        .ok (directReadD t "constructor.fields") from hge _]
    rfl
  cases hbe : (instanceofMap (directReadD t "constructor.fields") &&
      mapHas (directReadD t "constructor.fields") k) with
  | true =>
    rw [hbe] at hemb
    exact propertyIsUnsafe_of_ember_true _ _ _ hemb
  | false =>
    rw [hbe] at hemb
    rw [propertyIsUnsafe_of_ember_false _ _ _ hemb]
    rw [hno]
    rfl

/-- On a boxed-primitive target (classified safe, in-check false, writes
throwing), one key step always raises the write error. -/
theorem processKey_prim (md : JVal → JVal → NOpts → MergeOut) (f : Nat)
    (s t : JVal) (k : Key)
    (hu : propertyIsUnsafe defaultNOpts t k = .ok false)
    (hno : propertyIsOnObject t k = false)
    (hset : ∀ key v, defaultNOpts.safeSet t key v =
      .error (.typeError "Cannot create property on a primitive value")) :
    processKey md f defaultNOpts s t k =
      .error (.exn (.typeError "Cannot create property on a primitive value"), t) := by
  unfold processKey
  simp only [hu]
  simp only [show (propertyIsOnObject t k && isMergeableObject (directReadD s k) &&
      !hasOwnProp (directReadD s k) "value") = false from by rw [hno]; rfl,
    Bool.false_eq_true, if_false]
  cases hch : (truthy (directReadD s k) && instanceofChange (directReadD s k)) with
  | true => simp only [hch, if_true, hset]
  | false => simp only [hch, Bool.false_eq_true, if_false, hset]

/-- A successful key step on an object target either leaves it unchanged or
writes an own property at exactly the processed key (same prototype chain
and flags). -/
theorem processKey_shape (md : JVal → JVal → NOpts → MergeOut) (f : Nat)
    (s : JVal) (k : Key) (town : List (Key × JVal × Bool)) (pr : List (Key × JVal))
    (sp ch : Bool) (mk : Option (List Key)) (T1 : JVal)
    (hbp : ∀ kv, buildPathToValue f s defaultNOpts [] [] = .ok kv → kv = [])
    (hpk : processKey md f defaultNOpts s (.obj town pr sp ch mk) k = .ok T1) :
    T1 = .obj town pr sp ch mk ∨
      ∃ w, T1 = .obj (setOwn town k w) pr sp ch mk := by
  unfold processKey at hpk
  cases hu : propertyIsUnsafe defaultNOpts (.obj town pr sp ch mk) k with
  | error e => simp only [hu] at hpk; exact absurd hpk (by simp)
  | ok b =>
    cases b with
    | true =>
      simp only [hu] at hpk
      cases hb : buildPathToValue f s defaultNOpts [] [] with
      | error m => simp only [hb] at hpk; exact absurd hpk (by simp)
      | ok kv =>
        have hkv := hbp kv hb
        subst hkv
        simp only [hb, List.foldlM, pure, Except.pure] at hpk
        injection hpk with h1
        exact Or.inl h1.symm
    | false =>
      simp only [hu] at hpk
      cases hcond : (propertyIsOnObject (JVal.obj town pr sp ch mk) k &&
          isMergeableObject (directReadD s k) &&
          !hasOwnProp (directReadD s k) "value") with
      | true =>
        simp only [hcond, if_true] at hpk
        simp only [show defaultNOpts.safeGet (JVal.obj town pr sp ch mk) k =
            .ok (directReadD (JVal.obj town pr sp ch mk) k) from rfl] at hpk
        cases hg2 : defaultNOpts.safeGet s k with
        | error e => simp only [hg2] at hpk; exact absurd hpk (by simp)
        | ok sv =>
          simp only [hg2] at hpk
          cases hmd : md (directReadD (JVal.obj town pr sp ch mk) k) sv defaultNOpts with
          | ok ret tg2 =>
            simp only [hmd, show defaultNOpts.safeSet (JVal.obj town pr sp ch mk) k ret =
                .ok (JVal.obj (setOwn town k ret) pr sp ch mk) from rfl] at hpk
            injection hpk with h1
            exact Or.inr ⟨ret, h1.symm⟩
          | thrown e tg2 => simp only [hmd] at hpk; exact absurd hpk (by simp)
          | fuelOut tg2 => simp only [hmd] at hpk; exact absurd hpk (by simp)
      | false =>
        simp only [hcond, Bool.false_eq_true, if_false] at hpk
        cases hch : (truthy (directReadD s k) && instanceofChange (directReadD s k)) with
        | true =>
          simp only [hch, if_true,
            show defaultNOpts.safeSet (JVal.obj town pr sp ch mk) k
                (directReadD (directReadD s k) "value") =
              .ok (JVal.obj (setOwn town k (directReadD (directReadD s k) "value"))
                pr sp ch mk) from rfl] at hpk
          injection hpk with h1
          exact Or.inr ⟨directReadD (directReadD s k) "value", h1.symm⟩
        | false =>
          simp only [hch, Bool.false_eq_true, if_false,
            show defaultNOpts.safeSet (JVal.obj town pr sp ch mk) k (directReadD s k) =
              .ok (JVal.obj (setOwn town k (directReadD s k)) pr sp ch mk) from rfl] at hpk
          injection hpk with h1
          exact Or.inr ⟨directReadD s k, h1.symm⟩

/-- Along a successful run of the key loop an object target keeps its
prototype chain and flags, and its own entries off the processed keys. -/
theorem runKeys_frame (md : JVal → JVal → NOpts → MergeOut) (f : Nat) (s : JVal)
    (hbp : ∀ kv, buildPathToValue f s defaultNOpts [] [] = .ok kv → kv = []) :
    ∀ (ks : List Key) (town : List (Key × JVal × Bool)) (pr : List (Key × JVal))
      (sp ch : Bool) (mk : Option (List Key)) (r1 t1 : JVal),
      runKeys md f defaultNOpts s ks (.obj town pr sp ch mk) = .ok r1 t1 →
      ∃ rown, t1 = .obj rown pr sp ch mk ∧
        ∀ x, x ∉ ks → ownLookup rown x = ownLookup town x := by
  intro ks
  induction ks with
  | nil =>
    intro town pr sp ch mk r1 t1 h
    simp only [runKeys] at h
    injection h with h1 h2
    exact ⟨town, h2.symm, fun x _ => rfl⟩
  | cons k ks ih =>
    intro town pr sp ch mk r1 t1 h
    simp only [runKeys] at h
    cases hp : processKey md f defaultNOpts s (.obj town pr sp ch mk) k with
    | ok T1 =>
      rw [hp] at h
      have h' : runKeys md f defaultNOpts s ks T1 = .ok r1 t1 := h
      rcases processKey_shape md f s k town pr sp ch mk T1 hbp hp with hT | ⟨w, hT⟩
      · subst hT
        obtain ⟨rown, hr, hpres⟩ := ih town pr sp ch mk r1 t1 h'
        exact ⟨rown, hr, fun x hx => hpres x (fun hm => hx (List.mem_cons_of_mem _ hm))⟩
      · subst hT
        obtain ⟨rown, hr, hpres⟩ := ih (setOwn town k w) pr sp ch mk r1 t1 h'
        refine ⟨rown, hr, fun x hx => ?_⟩
        have hx1 : x ∉ ks := fun hm => hx (List.mem_cons_of_mem _ hm)
        have hxk : x ≠ k := fun he => hx (he ▸ List.mem_cons_self k ks)
        rw [hpres x hx1, ownLookup_setOwn_other town k x w hxk]
    | error p =>
      obtain ⟨m, t'⟩ := p
      cases m <;> rw [hp] at h <;> simp at h

end MergeDeep

namespace MergeDeep

/-- A safe key whose target entry already agrees with what the merge would
write is re-processed as a no-op: the recursion branch re-merges into a
fixed point, the leaf branch re-assigns the identical value. -/
theorem processKey_stable (md : JVal → JVal → NOpts → MergeOut) (f : Nat)
    (s : JVal) (k : Key) (rown : List (Key × JVal × Bool)) (pr : List (Key × JVal))
    (sp ch : Bool) (mk : Option (List Key)) (w : JVal) (e1 : Bool)
    (hsget : defaultNOpts.safeGet s k = .ok (directReadD s k))
    (hwl : isWrapperLike (directReadD s k) = false)
    (huR : propertyIsUnsafe defaultNOpts (.obj rown pr sp ch mk) k = .ok false)
    (hk : ownLookup rown k = some (w, e1))
    (hmw : (isMergeableObject (directReadD s k) = true ∧
        md w (directReadD s k) defaultNOpts = .ok w w) ∨
      (w = directReadD s k ∧ isMergeableObject (directReadD s k) = false)) :
    processKey md f defaultNOpts s (.obj rown pr sp ch mk) k =
      .ok (.obj rown pr sp ch mk) := by
  have honR : propertyIsOnObject (JVal.obj rown pr sp ch mk) k = true := by
    simp [propertyIsOnObject, jsIn, hk]
  have hgR : defaultNOpts.safeGet (JVal.obj rown pr sp ch mk) k = .ok w := by
    rw [show defaultNOpts.safeGet (JVal.obj rown pr sp ch mk) k =
        .ok (directReadD (JVal.obj rown pr sp ch mk) k) from rfl]
    simp [directReadD, hk]
  have hsetR : defaultNOpts.safeSet (JVal.obj rown pr sp ch mk) k w =
      .ok (JVal.obj rown pr sp ch mk) := by
    rw [show defaultNOpts.safeSet (JVal.obj rown pr sp ch mk) k w =
        .ok (JVal.obj (setOwn rown k w) pr sp ch mk) from rfl]
    rw [setOwn_same rown k w e1 hk]
  rcases hmw with ⟨hm, hmd⟩ | ⟨hw, hm⟩
  · have htr := truthy_of_mergeable _ hm
    have hnov := (wrapper_parts _ hwl).2 htr
    have hcondR : (propertyIsOnObject (JVal.obj rown pr sp ch mk) k &&
        isMergeableObject (directReadD s k) &&
        !hasOwnProp (directReadD s k) "value") = true := by
      rw [honR, hm, hnov]
      rfl
    exact processKey_recurse md f defaultNOpts s (JVal.obj rown pr sp ch mk) k
      w (directReadD s k) w w (JVal.obj rown pr sp ch mk) huR hcondR hgR hsget hmd hsetR
  · have hcondR : (propertyIsOnObject (JVal.obj rown pr sp ch mk) k &&
        isMergeableObject (directReadD s k) &&
        !hasOwnProp (directReadD s k) "value") = false := by
      rw [hm]
      simp
    have hchg : (truthy (directReadD s k) &&
        instanceofChange (directReadD s k)) = false := by
      rw [(wrapper_parts _ hwl).1]
      simp
    subst hw
    exact processKey_leaf md f defaultNOpts s (JVal.obj rown pr sp ch mk) k
      (JVal.obj rown pr sp ch mk) huR hcondR hchg hsetR

/-- Core step lemma for idempotence: a successful key step on an object
target writes at most its own key, preserves the `constructor.fields` read,
and is re-processed as a no-op on any later state that agrees with the
written entry (given fixed points for the recursive merges). -/
theorem processKey_reidem (md : JVal → JVal → NOpts → MergeOut) (f : Nat)
    (s : JVal) (k : Key) (town : List (Key × JVal × Bool)) (pr : List (Key × JVal))
    (sp ch : Bool) (mk : Option (List Key)) (T1 : JVal)
    (hkcf : k ≠ "constructor.fields")
    (hsget : defaultNOpts.safeGet s k = .ok (directReadD s k))
    (hwl : isWrapperLike (directReadD s k) = false)
    (hbp : ∀ kv, buildPathToValue f s defaultNOpts [] [] = .ok kv → kv = [])
    (hpk : processKey md f defaultNOpts s (.obj town pr sp ch mk) k = .ok T1) :
    ∃ town1, T1 = .obj town1 pr sp ch mk ∧
      ownLookup town1 "constructor.fields" = ownLookup town "constructor.fields" ∧
      ∀ (rown : List (Key × JVal × Bool)),
        ownLookup rown k = ownLookup town1 k →
        ownLookup rown "constructor.fields" = ownLookup town "constructor.fields" →
        (isMergeableObject (directReadD s k) = true →
          ∀ tv ret tg2, md tv (directReadD s k) defaultNOpts = .ok ret tg2 →
            md ret (directReadD s k) defaultNOpts = .ok ret ret) →
        (isMergeableObject (directReadD s k) = true →
          md (directReadD s k) (directReadD s k) defaultNOpts =
            .ok (directReadD s k) (directReadD s k)) →
        processKey md f defaultNOpts s (.obj rown pr sp ch mk) k =
          .ok (.obj rown pr sp ch mk) := by
  have hcfk : "constructor.fields" ≠ k := fun h => hkcf h.symm
  unfold processKey at hpk
  cases hembT : (instanceofMap
      (directReadD (JVal.obj town pr sp ch mk) "constructor.fields") &&
      mapHas (directReadD (JVal.obj town pr sp ch mk) "constructor.fields") k) with
  | true =>
    have huT := propertyIsUnsafe_obj_emb_true town pr sp ch mk k hembT
    simp only [huT] at hpk
    cases hcond : (propertyIsOnObject (JVal.obj town pr sp ch mk) k &&
        isMergeableObject (directReadD s k) &&
        !hasOwnProp (directReadD s k) "value") with
    | true =>
      simp only [hcond, if_true,
        show defaultNOpts.safeGet (JVal.obj town pr sp ch mk) k =
          .ok (directReadD (JVal.obj town pr sp ch mk) k) from rfl, hsget] at hpk
      cases hmd : md (directReadD (JVal.obj town pr sp ch mk) k) (directReadD s k)
          defaultNOpts with
      | ok ret tg2 =>
        simp only [hmd,
          show defaultNOpts.safeSet (JVal.obj town pr sp ch mk) k ret =
            .ok (JVal.obj (setOwn town k ret) pr sp ch mk) from rfl] at hpk
        injection hpk with h1
        have hmm : isMergeableObject (directReadD s k) = true := by
          simp only [Bool.and_eq_true] at hcond
          exact hcond.1.2
        refine ⟨setOwn town k ret, h1.symm,
          ownLookup_setOwn_other town k "constructor.fields" ret hcfk, ?_⟩
        intro rown hkR hcfR hidem hself
        obtain ⟨e1, he1⟩ := ownLookup_setOwn_pair town k ret
        rw [he1] at hkR
        have hdrcf := directReadD_obj_congr rown town pr sp ch mk "constructor.fields" hcfR
        have huR : propertyIsUnsafe defaultNOpts (JVal.obj rown pr sp ch mk) k =
            .ok false :=
          propertyIsUnsafe_obj_emb_true rown pr sp ch mk k (by rw [hdrcf]; exact hembT)
        exact processKey_stable md f s k rown pr sp ch mk ret e1 hsget hwl huR hkR
          (Or.inl ⟨hmm, hidem hmm _ _ _ hmd⟩)
      | thrown e tg2 => simp only [hmd] at hpk; exact absurd hpk (by simp)
      | fuelOut tg2 => simp only [hmd] at hpk; exact absurd hpk (by simp)
    | false =>
      simp only [hcond, Bool.false_eq_true, if_false] at hpk
      have hchg : (truthy (directReadD s k) &&
          instanceofChange (directReadD s k)) = false := by
        rw [(wrapper_parts _ hwl).1]
        simp
      simp only [hchg, Bool.false_eq_true, if_false,
        show defaultNOpts.safeSet (JVal.obj town pr sp ch mk) k (directReadD s k) =
          .ok (JVal.obj (setOwn town k (directReadD s k)) pr sp ch mk) from rfl] at hpk
      injection hpk with h1
      refine ⟨setOwn town k (directReadD s k), h1.symm,
        ownLookup_setOwn_other town k "constructor.fields" _ hcfk, ?_⟩
      intro rown hkR hcfR hidem hself
      obtain ⟨e1, he1⟩ := ownLookup_setOwn_pair town k (directReadD s k)
      rw [he1] at hkR
      have hdrcf := directReadD_obj_congr rown town pr sp ch mk "constructor.fields" hcfR
      have huR : propertyIsUnsafe defaultNOpts (JVal.obj rown pr sp ch mk) k =
          .ok false :=
        propertyIsUnsafe_obj_emb_true rown pr sp ch mk k (by rw [hdrcf]; exact hembT)
      cases hm : isMergeableObject (directReadD s k) with
      | true =>
        exact processKey_stable md f s k rown pr sp ch mk _ e1 hsget hwl huR hkR
          (Or.inl ⟨hm, hself hm⟩)
      | false =>
        exact processKey_stable md f s k rown pr sp ch mk _ e1 hsget hwl huR hkR
          (Or.inr ⟨rfl, hm⟩)
  | false =>
    have huT := propertyIsUnsafe_obj_emb_false town pr sp ch mk k hembT
    cases hub : (propertyIsOnObject (JVal.obj town pr sp ch mk) k &&
        !(hasOwnProp (JVal.obj town pr sp ch mk) k &&
          propertyIsEnumerable (JVal.obj town pr sp ch mk) k)) with
    | true =>
      rw [hub] at huT
      simp only [huT] at hpk
      cases hb : buildPathToValue f s defaultNOpts [] [] with
      | error m => simp only [hb] at hpk; exact absurd hpk (by simp)
      | ok kv =>
        have hkv := hbp kv hb
        subst hkv
        simp only [hb, List.foldlM, pure, Except.pure] at hpk
        injection hpk with h1
        refine ⟨town, h1.symm, rfl, ?_⟩
        intro rown hkR hcfR hidem hself
        have hdrcf := directReadD_obj_congr rown town pr sp ch mk "constructor.fields" hcfR
        have huR : propertyIsUnsafe defaultNOpts (JVal.obj rown pr sp ch mk) k =
            .ok true := by
          rw [propertyIsUnsafe_obj_emb_false rown pr sp ch mk k
            (by rw [hdrcf]; exact hembT)]
          rw [propertyIsOnObject_obj_congr rown town pr sp ch mk k hkR,
            hasOwnProp_obj_congr rown town pr sp ch mk k hkR,
            propertyIsEnumerable_obj_congr rown town pr sp ch mk k hkR, hub]
        exact processKey_unsafe_skip md f defaultNOpts s (JVal.obj rown pr sp ch mk) k
          huR hb
    | false =>
      rw [hub] at huT
      simp only [huT] at hpk
      cases hcond : (propertyIsOnObject (JVal.obj town pr sp ch mk) k &&
          isMergeableObject (directReadD s k) &&
          !hasOwnProp (directReadD s k) "value") with
      | true =>
        have honT : propertyIsOnObject (JVal.obj town pr sp ch mk) k = true := by
          simp only [Bool.and_eq_true] at hcond
          exact hcond.1.1
        have hmm : isMergeableObject (directReadD s k) = true := by
          simp only [Bool.and_eq_true] at hcond
          exact hcond.1.2
        have hoe : (hasOwnProp (JVal.obj town pr sp ch mk) k &&
            propertyIsEnumerable (JVal.obj town pr sp ch mk) k) = true := by
          cases hq : (hasOwnProp (JVal.obj town pr sp ch mk) k &&
              propertyIsEnumerable (JVal.obj town pr sp ch mk) k) with
          | true => rfl
          | false => rw [honT, hq] at hub; exact absurd hub (by simp)
        have h1s : (ownLookup town k).isSome = true := by
          have hho : hasOwnProp (JVal.obj town pr sp ch mk) k = true := by
            simp only [Bool.and_eq_true] at hoe
            exact hoe.1
          exact hho
        simp only [hcond, if_true,
          show defaultNOpts.safeGet (JVal.obj town pr sp ch mk) k =
            .ok (directReadD (JVal.obj town pr sp ch mk) k) from rfl, hsget] at hpk
        cases hmd : md (directReadD (JVal.obj town pr sp ch mk) k) (directReadD s k)
            defaultNOpts with
        | ok ret tg2 =>
          simp only [hmd,
            show defaultNOpts.safeSet (JVal.obj town pr sp ch mk) k ret =
              .ok (JVal.obj (setOwn town k ret) pr sp ch mk) from rfl] at hpk
          injection hpk with h1
          cases hLk : ownLookup town k with
          | none => rw [hLk] at h1s; exact absurd h1s (by simp)
          | some p =>
            obtain ⟨v0, e0⟩ := p
            have he0 : e0 = true := by
              have hen : propertyIsEnumerable (JVal.obj town pr sp ch mk) k = true := by
                simp only [Bool.and_eq_true] at hoe
                exact hoe.2
              rw [show propertyIsEnumerable (JVal.obj town pr sp ch mk) k =
                  ((ownLookup town k).map Prod.snd).getD false from rfl, hLk] at hen
              exact hen
            subst he0
            refine ⟨setOwn town k ret, h1.symm,
              ownLookup_setOwn_other town k "constructor.fields" ret hcfk, ?_⟩
            intro rown hkR hcfR hidem hself
            rw [ownLookup_setOwn_some town k ret v0 true hLk] at hkR
            have hdrcf := directReadD_obj_congr rown town pr sp ch mk
              "constructor.fields" hcfR
            have huR : propertyIsUnsafe defaultNOpts (JVal.obj rown pr sp ch mk) k =
                .ok false := by
              rw [propertyIsUnsafe_obj_emb_false rown pr sp ch mk k
                (by rw [hdrcf]; exact hembT)]
              have hho : hasOwnProp (JVal.obj rown pr sp ch mk) k = true := by
                simp [hasOwnProp, hkR]
              have hen : propertyIsEnumerable (JVal.obj rown pr sp ch mk) k = true := by
                simp [propertyIsEnumerable, hkR]
              rw [hho, hen]
              simp
            exact processKey_stable md f s k rown pr sp ch mk ret true hsget hwl huR hkR
              (Or.inl ⟨hmm, hidem hmm _ _ _ hmd⟩)
        | thrown e tg2 => simp only [hmd] at hpk; exact absurd hpk (by simp)
        | fuelOut tg2 => simp only [hmd] at hpk; exact absurd hpk (by simp)
      | false =>
        simp only [hcond, Bool.false_eq_true, if_false] at hpk
        have hchg : (truthy (directReadD s k) &&
            instanceofChange (directReadD s k)) = false := by
          rw [(wrapper_parts _ hwl).1]
          simp
        simp only [hchg, Bool.false_eq_true, if_false,
          show defaultNOpts.safeSet (JVal.obj town pr sp ch mk) k (directReadD s k) =
            .ok (JVal.obj (setOwn town k (directReadD s k)) pr sp ch mk) from rfl] at hpk
        injection hpk with h1
        have htk1 : ownLookup (setOwn town k (directReadD s k)) k =
            some (directReadD s k, true) := by
          cases hLk : ownLookup town k with
          | none => exact ownLookup_setOwn_none town k _ hLk
          | some p =>
            obtain ⟨v0, e0⟩ := p
            have he0 : e0 = true := by
              have honT : propertyIsOnObject (JVal.obj town pr sp ch mk) k = true := by
                simp [propertyIsOnObject, jsIn, hLk]
              have hoe : (hasOwnProp (JVal.obj town pr sp ch mk) k &&
                  propertyIsEnumerable (JVal.obj town pr sp ch mk) k) = true := by
                cases hq : (hasOwnProp (JVal.obj town pr sp ch mk) k &&
                    propertyIsEnumerable (JVal.obj town pr sp ch mk) k) with
                | true => rfl
                | false => rw [honT, hq] at hub; exact absurd hub (by simp)
              have hen : propertyIsEnumerable (JVal.obj town pr sp ch mk) k = true := by
                simp only [Bool.and_eq_true] at hoe
                exact hoe.2
              rw [show propertyIsEnumerable (JVal.obj town pr sp ch mk) k =
                  ((ownLookup town k).map Prod.snd).getD false from rfl, hLk] at hen
              exact hen
            subst he0
            exact ownLookup_setOwn_some town k _ v0 true hLk
        refine ⟨setOwn town k (directReadD s k), h1.symm,
          ownLookup_setOwn_other town k "constructor.fields" _ hcfk, ?_⟩
        intro rown hkR hcfR hidem hself
        rw [htk1] at hkR
        have hdrcf := directReadD_obj_congr rown town pr sp ch mk "constructor.fields" hcfR
        have huR : propertyIsUnsafe defaultNOpts (JVal.obj rown pr sp ch mk) k =
            .ok false := by
          rw [propertyIsUnsafe_obj_emb_false rown pr sp ch mk k
            (by rw [hdrcf]; exact hembT)]
          have hho : hasOwnProp (JVal.obj rown pr sp ch mk) k = true := by
            simp [hasOwnProp, hkR]
          have hen : propertyIsEnumerable (JVal.obj rown pr sp ch mk) k = true := by
            simp [propertyIsEnumerable, hkR]
          rw [hho, hen]
          simp
        cases hm : isMergeableObject (directReadD s k) with
        | true =>
          exact processKey_stable md f s k rown pr sp ch mk _ true hsget hwl huR hkR
            (Or.inl ⟨hm, hself hm⟩)
        | false =>
          exact processKey_stable md f s k rown pr sp ch mk _ true hsget hwl huR hkR
            (Or.inr ⟨rfl, hm⟩)

end MergeDeep

namespace MergeDeep

/-- Re-running the key loop on the state a successful run produced is a
no-op, provided the keys are distinct, avoid `constructor.fields`, read
wrapper-free source values, and the recursive merges they trigger are
idempotent. -/
theorem runKeys_reidem (md : JVal → JVal → NOpts → MergeOut) (f : Nat) (s : JVal)
    (hsget : ∀ k, defaultNOpts.safeGet s k = .ok (directReadD s k))
    (hbp : ∀ kv, buildPathToValue f s defaultNOpts [] [] = .ok kv → kv = []) :
    ∀ (ks : List Key), ks.Nodup →
      (∀ k, k ∈ ks → k ≠ "constructor.fields" ∧
        isWrapperLike (directReadD s k) = false ∧
        (isMergeableObject (directReadD s k) = true →
          ∀ tv ret tg2, md tv (directReadD s k) defaultNOpts = .ok ret tg2 →
            md ret (directReadD s k) defaultNOpts = .ok ret ret) ∧
        (isMergeableObject (directReadD s k) = true →
          md (directReadD s k) (directReadD s k) defaultNOpts =
            .ok (directReadD s k) (directReadD s k))) →
      ∀ (town : List (Key × JVal × Bool)) (pr : List (Key × JVal)) (sp ch : Bool)
        (mk : Option (List Key)) (r1 t1 : JVal),
        runKeys md f defaultNOpts s ks (.obj town pr sp ch mk) = .ok r1 t1 →
        runKeys md f defaultNOpts s ks r1 = .ok r1 r1 := by
  intro ks
  induction ks with
  | nil => intro _ _ town pr sp ch mk r1 t1 h; rfl
  | cons k ks ih =>
    intro hnd hK town pr sp ch mk r1 t1 h
    simp only [runKeys] at h
    cases hp : processKey md f defaultNOpts s (.obj town pr sp ch mk) k with
    | error p =>
      obtain ⟨m, t'⟩ := p
      cases m <;> rw [hp] at h <;> simp at h
    | ok T1 =>
      rw [hp] at h
      have h' : runKeys md f defaultNOpts s ks T1 = .ok r1 t1 := h
      obtain ⟨hk1, hk2, hk3, hk4⟩ := hK k (List.mem_cons_self _ _)
      obtain ⟨town1, hT1, hcf1, hcore⟩ :=
        processKey_reidem md f s k town pr sp ch mk T1 hk1 (hsget k) hk2 hbp hp
      subst hT1
      simp only [List.nodup_cons] at hnd
      have hK' : ∀ x, x ∈ ks → x ≠ "constructor.fields" ∧
          isWrapperLike (directReadD s x) = false ∧
          (isMergeableObject (directReadD s x) = true →
            ∀ tv ret tg2, md tv (directReadD s x) defaultNOpts = .ok ret tg2 →
              md ret (directReadD s x) defaultNOpts = .ok ret ret) ∧
          (isMergeableObject (directReadD s x) = true →
            md (directReadD s x) (directReadD s x) defaultNOpts =
              .ok (directReadD s x) (directReadD s x)) :=
        fun x hx => hK x (List.mem_cons_of_mem _ hx)
      have hsecond := ih hnd.2 hK' town1 pr sp ch mk r1 t1 h'
      obtain ⟨rown, hr1t, hpres⟩ :=
        runKeys_frame md f s hbp ks town1 pr sp ch mk r1 t1 h'
      have hrt := runKeys_ok_eq md f defaultNOpts s ks (JVal.obj town1 pr sp ch mk)
        r1 t1 h'
      rw [← hrt] at hr1t
      have hkn : k ∉ ks := hnd.1
      have hcfn : "constructor.fields" ∉ ks :=
        fun hm => (hK "constructor.fields" (List.mem_cons_of_mem _ hm)).1 rfl
      have hpk2 : processKey md f defaultNOpts s r1 k = .ok r1 := by
        rw [hr1t]
        exact hcore rown (hpres k hkn) ((hpres "constructor.fields" hcfn).trans hcf1)
          hk3 hk4
      simp only [runKeys]
      rw [hpk2]
      exact hsecond

end MergeDeep

namespace MergeDeep

/-- A non-array merge whose source enumerates no keys returns the target
unchanged. -/
theorem mergeDeepF_trivial_keys (f : Nat) (t s : JVal)
    (hta : isJSArray t = false) (hsa : isJSArray s = false)
    (hk : getKeys s = .ok []) :
    mergeDeepF (f + 1) t s defaultNOpts = .ok t t := by
  rw [mergeDeepF_nonarray f t s defaultNOpts hta hsa]
  unfold mergeTargetAndSourceGo
  rw [hk]
  rfl

/-- A key loop that starts with a failing key step never returns normally. -/
theorem runKeys_cons_error (md : JVal → JVal → NOpts → MergeOut) (f : Nat)
    (s t : JVal) (k0 : Key) (ks : List Key) (r t2 : JVal) (m : MErr) (t' : JVal)
    (hpk : processKey md f defaultNOpts s t k0 = .error (m, t')) :
    runKeys md f defaultNOpts s (k0 :: ks) t ≠ .ok r t2 := by
  intro h
  cases m <;> simp [runKeys, hpk] at h

/-- The heart of the amended idempotence claim: a successful merge of a
wrapper-free, `constructor.fields`-free, well-formed source is a fixed
point of re-merging the same source. -/
theorem mergeDeep_reidem : ∀ (fuel : Nat) (t s r1 t1 : JVal),
    sizeOf s < fuel → selfRemergeSafe s = true → noWrapF fuel s = true →
    noCFF fuel s = true → wfKeysF fuel s = true →
    mergeDeepF fuel t s defaultNOpts = .ok r1 t1 →
    mergeDeepF fuel r1 s defaultNOpts = .ok r1 r1 := by
  intro fuel
  induction fuel with
  | zero => intro t s r1 t1 hsz _ _ _ _ _; exact absurd hsz (by omega)
  | succ f ih =>
    intro t s r1 t1 hsz hsr hnw hcf hwf hrun
    cases hsa : isJSArray s with
    | true =>
      have hr1 : r1 = s := by
        cases hta : isJSArray t with
        | true =>
          rw [show mergeDeepF (f + 1) t s defaultNOpts = .ok s t from by
            simp [mergeDeepF, hsa, hta]] at hrun
          injection hrun with h1 h2
          exact h1.symm
        | false =>
          rw [show mergeDeepF (f + 1) t s defaultNOpts = .ok s t from by
            simp [mergeDeepF, hsa, hta]] at hrun
          injection hrun with h1 h2
          exact h1.symm
      rw [hr1]
      exact mergeDeep_self (f + 1) s hsz hsr hnw hwf
    | false =>
      cases hta : isJSArray t with
      | true =>
        have hr1 : r1 = s := by
          rw [show mergeDeepF (f + 1) t s defaultNOpts = .ok s t from by
            simp [mergeDeepF, hsa, hta]] at hrun
          injection hrun with h1 h2
          exact h1.symm
        rw [hr1]
        exact mergeDeep_self (f + 1) s hsz hsr hnw hwf
      | false =>
        rw [mergeDeepF_nonarray f t s defaultNOpts hta hsa] at hrun
        cases hms : mergeTargetAndSourceGo (mergeDeepF f) f t s defaultNOpts with
        | thrown e t2 => rw [hms] at hrun; simp at hrun
        | fuelOut t2 => rw [hms] at hrun; simp at hrun
        | ok r t2 =>
          rw [hms] at hrun
          have hinj : MergeOut.ok r t2 = MergeOut.ok r1 t1 := hrun
          injection hinj with hre hte
          subst hre
          subst hte
          cases s with
          | vnull =>
            rw [show mergeTargetAndSourceGo (mergeDeepF f) f t JVal.vnull defaultNOpts =
              .thrown toObjectExn t from rfl] at hms
            exact absurd hms (by simp)
          | undef =>
            rw [show mergeTargetAndSourceGo (mergeDeepF f) f t JVal.undef defaultNOpts =
              .thrown toObjectExn t from rfl] at hms
            exact absurd hms (by simp)
          | arr es => simp [isJSArray] at hsa
          | bool b =>
            have hms' : runKeys (mergeDeepF f) f defaultNOpts (JVal.bool b) [] t =
                .ok r t2 := hms
            simp only [runKeys] at hms'
            injection hms' with h1 h2
            rw [← h1]
            exact mergeDeepF_trivial_keys f t (JVal.bool b) hta rfl rfl
          | num n =>
            have hms' : runKeys (mergeDeepF f) f defaultNOpts (JVal.num n) [] t =
                .ok r t2 := hms
            simp only [runKeys] at hms'
            injection hms' with h1 h2
            rw [← h1]
            exact mergeDeepF_trivial_keys f t (JVal.num n) hta rfl rfl
          | str st =>
            have hst : st = "" := by
              have h1 : st.isEmpty = true := hsr
              simpa [String.isEmpty_iff] using h1
            subst hst
            have hms' : runKeys (mergeDeepF f) f defaultNOpts (JVal.str "") [] t =
                .ok r t2 := hms
            simp only [runKeys] at hms'
            injection hms' with h1 h2
            rw [← h1]
            exact mergeDeepF_trivial_keys f t (JVal.str "") hta rfl rfl
          | obj sown spr ssp sch smk =>
            have hms' : runKeys (mergeDeepF f) f defaultNOpts
                (JVal.obj sown spr ssp sch smk)
                ((sown.filter (fun p => p.2.2)).map (fun p => p.1)) t = .ok r t2 := hms
            have hwfe := wfKeysF_entry f sown spr ssp sch smk hwf
            have hbp : ∀ kv, buildPathToValue f (JVal.obj sown spr ssp sch smk)
                defaultNOpts [] [] = .ok kv → kv = [] :=
              fun kv hb => bptv_noWrap_id f (f + 1) (JVal.obj sown spr ssp sch smk)
                defaultNOpts [] kv [] hsz hnw hb
            cases t with
            | arr es => simp [isJSArray] at hta
            | vnull =>
              cases hkl : (sown.filter (fun p => p.2.2)).map (fun p => p.1) with
              | nil =>
                rw [hkl] at hms'
                simp only [runKeys] at hms'
                injection hms' with h1 h2
                rw [← h1]
                exact mergeDeepF_trivial_keys f JVal.vnull
                  (JVal.obj sown spr ssp sch smk) rfl rfl
                  (by rw [show getKeys (JVal.obj sown spr ssp sch smk) =
                    .ok ((sown.filter (fun p => p.2.2)).map (fun p => p.1)) from rfl, hkl])
              | cons k0 krest =>
                rw [hkl] at hms'
                exact absurd hms' (runKeys_cons_error (mergeDeepF f) f
                  (JVal.obj sown spr ssp sch smk) JVal.vnull k0 krest r t2
                  (.exn (.typeError "Cannot read properties of null")) JVal.vnull rfl)
            | undef =>
              cases hkl : (sown.filter (fun p => p.2.2)).map (fun p => p.1) with
              | nil =>
                rw [hkl] at hms'
                simp only [runKeys] at hms'
                injection hms' with h1 h2
                rw [← h1]
                exact mergeDeepF_trivial_keys f JVal.undef
                  (JVal.obj sown spr ssp sch smk) rfl rfl
                  (by rw [show getKeys (JVal.obj sown spr ssp sch smk) =
                    .ok ((sown.filter (fun p => p.2.2)).map (fun p => p.1)) from rfl, hkl])
              | cons k0 krest =>
                rw [hkl] at hms'
                exact absurd hms' (runKeys_cons_error (mergeDeepF f) f
                  (JVal.obj sown spr ssp sch smk) JVal.undef k0 krest r t2
                  (.exn (.typeError "Cannot read properties of undefined")) JVal.undef rfl)
            | bool b =>
              cases hkl : (sown.filter (fun p => p.2.2)).map (fun p => p.1) with
              | nil =>
                rw [hkl] at hms'
                simp only [runKeys] at hms'
                injection hms' with h1 h2
                rw [← h1]
                exact mergeDeepF_trivial_keys f (JVal.bool b)
                  (JVal.obj sown spr ssp sch smk) rfl rfl
                  (by rw [show getKeys (JVal.obj sown spr ssp sch smk) =
                    .ok ((sown.filter (fun p => p.2.2)).map (fun p => p.1)) from rfl, hkl])
              | cons k0 krest =>
                rw [hkl] at hms'
                have hu := propertyIsUnsafe_prim_safe (JVal.bool b) k0 rfl (fun key => rfl)
                have hpk := processKey_prim (mergeDeepF f) f
                  (JVal.obj sown spr ssp sch smk) (JVal.bool b) k0 hu rfl
                  (fun key v => rfl)
                exact absurd hms' (runKeys_cons_error (mergeDeepF f) f
                  (JVal.obj sown spr ssp sch smk) (JVal.bool b) k0 krest r t2
                  (.exn (.typeError "Cannot create property on a primitive value"))
                  (JVal.bool b) hpk)
            | num n =>
              cases hkl : (sown.filter (fun p => p.2.2)).map (fun p => p.1) with
              | nil =>
                rw [hkl] at hms'
                simp only [runKeys] at hms'
                injection hms' with h1 h2
                rw [← h1]
                exact mergeDeepF_trivial_keys f (JVal.num n)
                  (JVal.obj sown spr ssp sch smk) rfl rfl
                  (by rw [show getKeys (JVal.obj sown spr ssp sch smk) =
                    .ok ((sown.filter (fun p => p.2.2)).map (fun p => p.1)) from rfl, hkl])
              | cons k0 krest =>
                rw [hkl] at hms'
                have hu := propertyIsUnsafe_prim_safe (JVal.num n) k0 rfl (fun key => rfl)
                have hpk := processKey_prim (mergeDeepF f) f
                  (JVal.obj sown spr ssp sch smk) (JVal.num n) k0 hu rfl
                  (fun key v => rfl)
                exact absurd hms' (runKeys_cons_error (mergeDeepF f) f
                  (JVal.obj sown spr ssp sch smk) (JVal.num n) k0 krest r t2
                  (.exn (.typeError "Cannot create property on a primitive value"))
                  (JVal.num n) hpk)
            | str st =>
              cases hkl : (sown.filter (fun p => p.2.2)).map (fun p => p.1) with
              | nil =>
                rw [hkl] at hms'
                simp only [runKeys] at hms'
                injection hms' with h1 h2
                rw [← h1]
                exact mergeDeepF_trivial_keys f (JVal.str st)
                  (JVal.obj sown spr ssp sch smk) rfl rfl
                  (by rw [show getKeys (JVal.obj sown spr ssp sch smk) =
                    .ok ((sown.filter (fun p => p.2.2)).map (fun p => p.1)) from rfl, hkl])
              | cons k0 krest =>
                rw [hkl] at hms'
                have hu := propertyIsUnsafe_prim_safe (JVal.str st) k0 rfl (fun key => rfl)
                have hpk := processKey_prim (mergeDeepF f) f
                  (JVal.obj sown spr ssp sch smk) (JVal.str st) k0 hu rfl
                  (fun key v => rfl)
                exact absurd hms' (runKeys_cons_error (mergeDeepF f) f
                  (JVal.obj sown spr ssp sch smk) (JVal.str st) k0 krest r t2
                  (.exn (.typeError "Cannot create property on a primitive value"))
                  (JVal.str st) hpk)
            | obj town tpr tsp tch tmk =>
              have hnde : (((sown.filter (fun p => p.2.2)).map (fun p => p.1)) :
                  List Key).Nodup := objectKeys_nodup sown hwfe.1
              have hsgetS : ∀ k, defaultNOpts.safeGet (JVal.obj sown spr ssp sch smk) k =
                  .ok (directReadD (JVal.obj sown spr ssp sch smk) k) := fun k => rfl
              have hK : ∀ k, k ∈ (sown.filter (fun p => p.2.2)).map (fun p => p.1) →
                  k ≠ "constructor.fields" ∧
                  isWrapperLike (directReadD (JVal.obj sown spr ssp sch smk) k) = false ∧
                  (isMergeableObject (directReadD (JVal.obj sown spr ssp sch smk) k) =
                      true →
                    ∀ tv ret tg2, mergeDeepF f tv
                        (directReadD (JVal.obj sown spr ssp sch smk) k)
                        defaultNOpts = .ok ret tg2 →
                      mergeDeepF f ret (directReadD (JVal.obj sown spr ssp sch smk) k)
                        defaultNOpts = .ok ret ret) ∧
                  (isMergeableObject (directReadD (JVal.obj sown spr ssp sch smk) k) =
                      true →
                    mergeDeepF f (directReadD (JVal.obj sown spr ssp sch smk) k)
                        (directReadD (JVal.obj sown spr ssp sch smk) k) defaultNOpts =
                      .ok (directReadD (JVal.obj sown spr ssp sch smk) k)
                        (directReadD (JVal.obj sown spr ssp sch smk) k)) := by
                intro k hkm
                obtain ⟨v, hventry⟩ := mem_keys_entry sown k hkm
                have hL : ownLookup sown k = some (v, true) :=
                  ownLookup_of_nodup sown k v true
                    ((keysNodup_iff_nodup _).mp hwfe.1) hventry
                have hdv : directReadD (JVal.obj sown spr ssp sch smk) k = v := by
                  simp [directReadD, hL]
                have hnwE := noWrapF_entry f sown spr ssp sch smk hnw k v true hventry
                have hcfE := noCFF_entry f sown spr ssp sch smk hcf k v true hventry
                have hwfE := hwfe.2 k v true hventry
                have hszv : sizeOf v < f := by
                  have := sizeOf_entry_lt sown spr ssp sch smk k v true hventry
                  omega
                rw [hdv]
                refine ⟨hcfE.1, hnwE.1, ?_, ?_⟩
                · intro hm tv ret tg2 hmd
                  exact ih tv v ret tg2 hszv (selfRemergeSafe_of_mergeable v hm)
                    hnwE.2 hcfE.2 hwfE hmd
                · intro hm
                  exact mergeDeep_self f v hszv (selfRemergeSafe_of_mergeable v hm)
                    hnwE.2 hwfE
              have hinv := runKeys_reidem (mergeDeepF f) f
                (JVal.obj sown spr ssp sch smk) hsgetS hbp
                ((sown.filter (fun p => p.2.2)).map (fun p => p.1)) hnde hK
                town tpr tsp tch tmk r t2 hms'
              obtain ⟨rown, ht2, hfr⟩ := runKeys_frame (mergeDeepF f) f
                (JVal.obj sown spr ssp sch smk) hbp
                ((sown.filter (fun p => p.2.2)).map (fun p => p.1))
                town tpr tsp tch tmk r t2 hms'
              have hrt := runKeys_ok_eq (mergeDeepF f) f defaultNOpts
                (JVal.obj sown spr ssp sch smk)
                ((sown.filter (fun p => p.2.2)).map (fun p => p.1))
                (JVal.obj town tpr tsp tch tmk) r t2 hms'
              rw [← hrt] at ht2
              rw [mergeDeepF_nonarray f r (JVal.obj sown spr ssp sch smk) defaultNOpts
                (by rw [ht2]; rfl) rfl]
              rw [show mergeTargetAndSourceGo (mergeDeepF f) f r
                  (JVal.obj sown spr ssp sch smk) defaultNOpts =
                  runKeys (mergeDeepF f) f defaultNOpts (JVal.obj sown spr ssp sch smk)
                    ((sown.filter (fun p => p.2.2)).map (fun p => p.1)) r from rfl]
              rw [hinv]

end MergeDeep

namespace MergeDeep

/-- C8 counterexample.  The claim says re-merging any wrapper-free source is
a no-op.  It is not: the source `{rel: 5, "constructor.fields": Map{"rel"}}`
contains no pending-change wrapper, yet merging it into a target exposing
`rel` only through its prototype chain skips `rel` on the first pass (the
key is classified unsafe and the wrapper search finds nothing) while writing
the literal `constructor.fields` own key; the second pass then reads that
key as a dynamic host-model field map, classifies `rel` safe, and writes it,
so the two results differ. -/
theorem mergeDeep_idempotence_counterexample :
    noWrapF 3000 exCFSource = true ∧
    (mergeDeep 3000 exRelTarget exCFSource ⟨none, none⟩).1 = .ok exCFRun1 exCFRun1 ∧
    (mergeDeep 3000 exCFRun1 exCFSource ⟨none, none⟩).1 = .ok exCFRun2 exCFRun2 ∧
    exCFRun2 ≠ exCFRun1 :=
  ⟨by decide, rfl, rfl, by simp [exCFRun1, exCFRun2]⟩

/-- C8 (amended).  For a source that contains no pending-change wrapper, no
`constructor.fields` own key anywhere, has pairwise-distinct own keys at
every level, and is re-mergeable (not `null`/`undefined`/a non-empty
string), any successful merge is a fixed point of re-merging the same
source: `mergeDeep(mergeDeep(target, source), source)` returns the same
value as `mergeDeep(target, source)` and mutates nothing further.  Fuel
adequacy (`sizeOf s < fuel`) is a model-side hypothesis. -/
theorem mergeDeep_idempotent_amended (fuel : Nat) (t s r1 t1 : JVal)
    (hf : sizeOf s < fuel) (hsr : selfRemergeSafe s = true)
    (hnw : noWrapF fuel s = true) (hncf : noCFF fuel s = true)
    (hwf : wfKeysF fuel s = true)
    (h1 : (mergeDeep fuel t s ⟨none, none⟩).1 = .ok r1 t1) :
    (mergeDeep fuel r1 s ⟨none, none⟩).1 = .ok r1 r1 :=
  mergeDeep_reidem fuel t s r1 t1 hf hsr hnw hncf hwf h1

/-- C8 witness: merging `{a: 5, b: {c: 1}}` into `{}` yields that very
object, and the amended theorem applied to this run shows the second merge
returns it unchanged. -/
theorem mergeDeep_idempotent_amended_witness :
    sizeOf exS7 < 2000 ∧ selfRemergeSafe exS7 = true ∧ noWrapF 2000 exS7 = true ∧
      noCFF 2000 exS7 = true ∧ wfKeysF 2000 exS7 = true ∧
      (mergeDeep 2000 exEmptyObj exS7 ⟨none, none⟩).1 = .ok exS7 exS7 ∧
      (mergeDeep 2000 exS7 exS7 ⟨none, none⟩).1 = .ok exS7 exS7 :=
  ⟨by decide, rfl, by decide, by decide, by decide, rfl,
    mergeDeep_idempotent_amended 2000 exEmptyObj exS7 exS7 exS7 (by decide) rfl
      (by decide) (by decide) (by decide) rfl⟩

end MergeDeep
